import Mathlib

/-!
# gonutz/layout: the keyboard chord state machine of `main`

A shallow embedding of `src/main.go`.  The polling loop of `main` keeps one
boolean per control key and one per action key (Left, Right, Up, Down,
Escape), folds every keyboard event into these booleans and then decides, on
that very event, whether to return (terminate) or to call `reposition` with
one of four quadrants.

* `setControlKeyDown`, `updateKeys`  : lines 112-129 (state update)
* `allControlKeysDown`               : lines 132-138 (the armed test)
* `checkAction`                      : lines 139-152 (the decision)
* `handleEvent`                      : lines 111-152 (one loop iteration)
* `performAction`                    : lines 139-151 (`return` or `reposition`)
* `processBatch`                     : the `for i := range data` loop
* `mainLoop`                         : lines 107-154 (the polling loop)
* `targetGeometry`, `reposition`     : lines 157-183 (the window placement)
* `RECT.Width`, `RECT.Height`        : lines 202-208

Key codes and event fields are `uint32` in the source; they are only compared
for equality, so they are `Nat` here.  An index out of range (a Go run-time
panic) is `none`.  A call of `reposition` is recorded as the action
`Action.place pos`; the loop goes on with the next event when the call
returns and stops when it panics.  Coordinates are `int32` in the source;
they are `Int` here with an explicit wrap-around (`wrapInt32`).  The Windows
functions that `reposition` calls are a parameter (`WinApi`) that gives their
replies; the loop takes the desktop `desk n` on which event number `n` is
handled.
-/

namespace Layout

/-- The five key codes `main` switches on (`di8.K_LEFT`, `di8.K_RIGHT`,
`di8.K_UP`, `di8.K_DOWN`, `di8.K_ESCAPE`).  Package `di8` is not part of the
repository, so the codes are a parameter; being the constants of one Go
`switch` they are pairwise distinct. -/
structure ActionKeys where
  K_LEFT : Nat
  K_RIGHT : Nat
  K_UP : Nat
  K_DOWN : Nat
  K_ESCAPE : Nat
  distinct : [K_LEFT, K_RIGHT, K_UP, K_DOWN, K_ESCAPE].Nodup

/-- The DirectInput values of the five action keys (DIK_LEFT = 0xCB,
DIK_RIGHT = 0xCD, DIK_UP = 0xC8, DIK_DOWN = 0xD0, DIK_ESCAPE = 0x01). -/
def di8 : ActionKeys := ⟨0xCB, 0xCD, 0xC8, 0xD0, 0x01, by decide⟩

/-- The control keys of the program: `[]uint32{di8.K_LCONTROL, di8.K_LWIN}`
(DIK_LCONTROL = 0x1D, DIK_LWIN = 0xDB). -/
def controlKeys : List Nat := [0x1D, 0xDB]

/-- The Go type `position` with its four constants. -/
inductive position where
  | topLeft
  | topRight
  | bottomLeft
  | bottomRight
  deriving DecidableEq, Repr

/-- One buffered keyboard event (`di8.DeviceObjectData`): `Ofs` is the key
code, `Data` is non-zero for a key press and zero for a release. -/
structure DeviceObjectData where
  Ofs : Nat
  Data : Nat
  deriving DecidableEq, Repr

/-- The local variables of `main` that hold the key state (lines 98-105). -/
structure KeyState where
  controlKeyDown : List Bool
  escapeKeyDown : Bool
  leftKeyDown : Bool
  rightKeyDown : Bool
  upKeyDown : Bool
  downKeyDown : Bool
  deriving DecidableEq, Repr

/-- What one loop iteration does besides updating the key state: nothing, one
call `reposition(pos)`, or `return` from `main`. -/
inductive Action where
  | none
  | place (pos : position)
  | terminate
  deriving DecidableEq, Repr

/-- The key state before the loop: `make([]bool, len(controlKeys))` and five
zero-valued booleans. -/
def initialState (controlKeys : List Nat) : KeyState :=
  { controlKeyDown := List.replicate controlKeys.length false
    escapeKeyDown := false
    leftKeyDown := false
    rightKeyDown := false
    upKeyDown := false
    downKeyDown := false }

/-- Lines 113-117: `for j, key := range controlKeys`, started at index `j`;
the assignment `controlKeyDown[j] = down` fails when `j` is out of range. -/
def setControlKeyDown (ofs : Nat) (down : Bool) :
    List Nat → Nat → List Bool → Option (List Bool)
  | [], _, ckd => some ckd
  | key :: rest, j, ckd =>
    if ofs = key then
      if j < ckd.length then setControlKeyDown ofs down rest (j + 1) (ckd.set j down)
      else Option.none
    else setControlKeyDown ofs down rest (j + 1) ckd

/-- Lines 112-129: fold one event into the key state. -/
def updateKeys (K : ActionKeys) (controlKeys : List Nat) (s : KeyState)
    (e : DeviceObjectData) : Option KeyState :=
  let down := e.Data != 0
  match setControlKeyDown e.Ofs down controlKeys 0 s.controlKeyDown with
  | Option.none => Option.none
  | some ckd =>
    let s1 := { s with controlKeyDown := ckd }
    some (
      if e.Ofs = K.K_LEFT then { s1 with leftKeyDown := down }
      else if e.Ofs = K.K_RIGHT then { s1 with rightKeyDown := down }
      else if e.Ofs = K.K_UP then { s1 with upKeyDown := down }
      else if e.Ofs = K.K_DOWN then { s1 with downKeyDown := down }
      else if e.Ofs = K.K_ESCAPE then { s1 with escapeKeyDown := down }
      else s1)

/-- Lines 132-138: the loop that computes `allControlKeysDown`. -/
def allControlKeysDown : List Bool → Bool
  | [] => true
  | down :: rest => if !down then false else allControlKeysDown rest

/-- Lines 139-152: the decision taken on the updated key state. -/
def checkAction (s : KeyState) : Action :=
  if allControlKeysDown s.controlKeyDown then
    if s.escapeKeyDown then Action.terminate
    else if s.leftKeyDown && s.upKeyDown then Action.place position.topLeft
    else if s.leftKeyDown && s.downKeyDown then Action.place position.bottomLeft
    else if s.rightKeyDown && s.upKeyDown then Action.place position.topRight
    else if s.rightKeyDown && s.downKeyDown then Action.place position.bottomRight
    else Action.none
  else Action.none

/-- Lines 111-152: one iteration of the event loop, the new key state and the
action taken on this event. -/
def handleEvent (K : ActionKeys) (controlKeys : List Nat) (s : KeyState)
    (e : DeviceObjectData) : Option (KeyState × Action) :=
  match updateKeys K controlKeys s e with
  | Option.none => Option.none
  | some s1 => some (s1, checkAction s1)

/-- The state updates of a sequence of events alone (lines 112-129 applied to
each event in order), without the decisions. -/
def applyEvents (K : ActionKeys) (controlKeys : List Nat) :
    KeyState → List DeviceObjectData → Option KeyState
  | s, [] => some s
  | s, e :: rest =>
    match updateKeys K controlKeys s e with
    | Option.none => Option.none
    | some s1 => applyEvents K controlKeys s1 rest

/-- A press of key `k` as DirectInput reports it (`Data = 0x80`). -/
def keyDown (k : Nat) : DeviceObjectData := ⟨k, 0x80⟩

/-- A release of key `k` (`Data = 0`). -/
def keyUp (k : Nat) : DeviceObjectData := ⟨k, 0⟩

/-- The state of key `k` after its most recent event in `es`, when there is one. -/
def latest (es : List DeviceObjectData) (k : Nat) : Option Bool :=
  (es.reverse.find? fun e => e.Ofs = k).map fun e => e.Data != 0

/-- How many of the pairs Left+Up, Left+Down, Right+Up, Right+Down have both
keys down. -/
def pairsDown (s : KeyState) : Nat :=
  (if s.leftKeyDown && s.upKeyDown then 1 else 0) +
  (if s.leftKeyDown && s.downKeyDown then 1 else 0) +
  (if s.rightKeyDown && s.upKeyDown then 1 else 0) +
  (if s.rightKeyDown && s.downKeyDown then 1 else 0)

/-- The five tracked action keys, in the order of the `switch`. -/
def ActionKeys.all (K : ActionKeys) : List Nat :=
  [K.K_LEFT, K.K_RIGHT, K.K_UP, K.K_DOWN, K.K_ESCAPE]

/-- Closed form of `updateKeys` on a key state with one slot per control key:
every entry takes the event's value when its key is the event's key and keeps
its value otherwise. -/
def nextState (K : ActionKeys) (controlKeys : List Nat) (s : KeyState)
    (e : DeviceObjectData) : KeyState :=
  { controlKeyDown :=
      List.zipWith (fun key d => if e.Ofs = key then (e.Data != 0) else d)
        controlKeys s.controlKeyDown
    escapeKeyDown := if e.Ofs = K.K_ESCAPE then (e.Data != 0) else s.escapeKeyDown
    leftKeyDown := if e.Ofs = K.K_LEFT then (e.Data != 0) else s.leftKeyDown
    rightKeyDown := if e.Ofs = K.K_RIGHT then (e.Data != 0) else s.rightKeyDown
    upKeyDown := if e.Ofs = K.K_UP then (e.Data != 0) else s.upKeyDown
    downKeyDown := if e.Ofs = K.K_DOWN then (e.Data != 0) else s.downKeyDown }

/-- Closed form of the key state after the events `es`, from the initial
state: every entry is down exactly when the latest event of its key is a
press. -/
def stateAfter (K : ActionKeys) (keys : List Nat) (es : List DeviceObjectData) : KeyState :=
  { controlKeyDown := keys.map fun k => latest es k == some true
    escapeKeyDown := latest es K.K_ESCAPE == some true
    leftKeyDown := latest es K.K_LEFT == some true
    rightKeyDown := latest es K.K_RIGHT == some true
    upKeyDown := latest es K.K_UP == some true
    downKeyDown := latest es K.K_DOWN == some true }

/-- The four directional pairs with their quadrant (lines 143-150): the
horizontal key, the vertical key and the position passed to `reposition`. -/
def directionalPairs (K : ActionKeys) : List (Nat × Nat × position) :=
  [(K.K_LEFT, K.K_UP, position.topLeft), (K.K_LEFT, K.K_DOWN, position.bottomLeft),
   (K.K_RIGHT, K.K_UP, position.topRight), (K.K_RIGHT, K.K_DOWN, position.bottomRight)]

/-- Wrap-around of an exact integer result to the Go type `int32`. -/
def wrapInt32 (z : Int) : Int := (z + 2147483648) % 4294967296 - 2147483648

/-- The values of the Go type `int32`. -/
def isInt32 (z : Int) : Bool := decide (-2147483648 ≤ z) && decide (z ≤ 2147483647)

/-- The struct `RECT` (lines 198-200); the fields are `int32` values. -/
structure RECT where
  Left : Int
  Top : Int
  Right : Int
  Bottom : Int
  deriving DecidableEq, Repr

/-- Lines 202-204: `r.Right - r.Left` in `int32` arithmetic. -/
def RECT.Width (r : RECT) : Int := wrapInt32 (r.Right - r.Left)

/-- Lines 206-208: `r.Bottom - r.Top` in `int32` arithmetic. -/
def RECT.Height (r : RECT) : Int := wrapInt32 (r.Bottom - r.Top)

/-- The struct `MONITORINFO` (lines 191-196). -/
structure MONITORINFO where
  CbSize : Nat
  RcMonitor : RECT
  RcWork : RECT
  DwFlags : Nat
  deriving DecidableEq, Repr

/-- Lines 166-178: the position and size `(x, y, w, h)` computed from the work
area `r`.  Go's `/` on `int32` truncates toward zero; dividing by 2 cannot
overflow, the additions can and wrap around. -/
def targetGeometry (r : RECT) (pos : position) : Int × Int × Int × Int :=
  let w := Int.tdiv r.Width 2
  let h := Int.tdiv r.Height 2
  match pos with
  | position.topLeft => (r.Left, r.Top, w, h)
  | position.topRight => (wrapInt32 (r.Left + w), r.Top, w, h)
  | position.bottomLeft => (r.Left, wrapInt32 (r.Top + h), w, h)
  | position.bottomRight => (wrapInt32 (r.Left + w), wrapInt32 (r.Top + h), w, h)

/-- The constant `MONITOR_DEFAULTTONEAREST`. -/
def MONITOR_DEFAULTTONEAREST : Nat := 0x00000002

/-- The constant `SW_RESTORE`. -/
def SW_RESTORE : Nat := 9

/-- The flags of the `SetWindowPos` call: `SWP_ASYNCWINDOWPOS | SWP_NOACTIVATE |
SWP_NOOWNERZORDER | SWP_NOZORDER | SWP_SHOWWINDOW`
(0x4000, 0x0010, 0x0200, 0x0004, 0x0040). -/
def setWindowPosFlags : Nat := 0x4000 ||| 0x0010 ||| 0x0200 ||| 0x0004 ||| 0x0040

/-- The replies of the Windows functions that `reposition` calls, as functions
of the arguments they are called with.  `getMonitorInfo` gives the return
value and the `MONITORINFO` it has filled in. -/
structure WinApi where
  getForegroundWindow : Nat
  monitorFromWindow : Nat → Nat → Nat
  getMonitorInfo : Nat → MONITORINFO → Nat × MONITORINFO
  showWindow : Nat → Nat → Nat
  setWindowPos : Nat → Nat → Int → Int → Int → Int → Nat → Nat

/-- A call of `reposition` that changes a window: `ShowWindow(window, cmd)` or
`SetWindowPos(window, insertAfter, x, y, cx, cy, flags)`; `x`, `y`, `cx`, `cy`
are the `int32` values that the code passes as `uintptr`. -/
inductive WinCall where
  | showWindow (window cmd : Nat)
  | setWindowPos (window insertAfter : Nat) (x y cx cy : Int) (flags : Nat)
  deriving DecidableEq, Repr

/-- How a call of `reposition` ends: with a Go panic (the process stops) or
with a normal return after the recorded window calls. -/
inductive Outcome where
  | panicked (msg : String)
  | returned (calls : List WinCall)
  deriving DecidableEq, Repr

/-- Lines 157-183: `reposition`.  The handle returned by `GetForegroundWindow`
and the monitor returned by `MonitorFromWindow` are used unchecked; only the
return value of `GetMonitorInfoW` is tested; the return values of
`ShowWindow` and `SetWindowPos` are dropped. -/
def reposition (os : WinApi) (pos : position) : Outcome :=
  let window := os.getForegroundWindow
  let monitor := os.monitorFromWindow window MONITOR_DEFAULTTONEAREST
  let reply := os.getMonitorInfo monitor ⟨40, ⟨0, 0, 0, 0⟩, ⟨0, 0, 0, 0⟩, 0⟩
  if reply.1 = 0 then Outcome.panicked "getMonitorInfo failed"
  else
    let _shown := os.showWindow window SW_RESTORE
    let g := targetGeometry reply.2.RcWork pos
    let _moved := os.setWindowPos window 0 g.1 g.2.1 g.2.2.1 g.2.2.2 setWindowPosFlags
    Outcome.returned [WinCall.showWindow window SW_RESTORE,
      WinCall.setWindowPos window 0 g.1 g.2.1 g.2.2.1 g.2.2.2 setWindowPosFlags]

/-- The reply that `reposition` gets from `GetMonitorInfoW` (lines 158-161):
the call is made for the monitor of the foreground window with a
`MONITORINFO` whose `CbSize` is 40. -/
def WinApi.monitorReply (os : WinApi) : Nat × MONITORINFO :=
  os.getMonitorInfo (os.monitorFromWindow os.getForegroundWindow MONITOR_DEFAULTTONEAREST)
    ⟨40, ⟨0, 0, 0, 0⟩, ⟨0, 0, 0, 0⟩, 0⟩

/-- A desktop without a foreground window: `GetForegroundWindow` returns 0,
`MonitorFromWindow` falls back to a monitor (handle 1) whose work area is
1920 x 1040, and `ShowWindow` and `SetWindowPos`, called for window 0, fail
and return 0. -/
def noForegroundWindow : WinApi :=
  { getForegroundWindow := 0
    monitorFromWindow := fun _ _ => 1
    getMonitorInfo := fun _ info =>
      (1, { info with RcMonitor := ⟨0, 0, 1920, 1080⟩, RcWork := ⟨0, 0, 1920, 1040⟩,
                      DwFlags := 1 })
    showWindow := fun _ _ => 0
    setWindowPos := fun _ _ _ _ _ _ _ => 0 }

/-- A desktop whose foreground window has handle `window`, on a monitor with
work area `work`; every call succeeds. -/
def desktop (window : Nat) (work : RECT) : WinApi :=
  { getForegroundWindow := window
    monitorFromWindow := fun _ _ => 1
    getMonitorInfo := fun _ info => (1, { info with RcMonitor := work, RcWork := work })
    showWindow := fun _ _ => 1
    setWindowPos := fun _ _ _ _ _ _ _ => 1 }

/-- How the loop of `main` stands after the events it has handled: it goes on,
`main` has returned (line 141), or a panic of `reposition` (lines 162-164)
has stopped the process. -/
inductive Ending where
  | running
  | returned
  | panicked (msg : String)
  deriving DecidableEq, Repr

/-- Lines 139-151, the effect of the decision: `return` ends `main`, a call
`reposition(pos)` is made on the desktop `os` and either returns, after which
the loop goes on, or panics, which ends `main`. -/
def performAction (os : WinApi) (a : Action) : Ending :=
  match a with
  | Action.none => Ending.running
  | Action.terminate => Ending.returned
  | Action.place pos =>
    match reposition os pos with
    | Outcome.panicked msg => Ending.panicked msg
    | Outcome.returned _ => Ending.running

/-- The loop `for i := range data`: events are handled in order.  The event
with number `n` (counted over the whole run) is handled on the desktop
`desk n`.  The `return` of line 141 and a panic of `reposition` leave the
loop, so later events are not handled.  The result is the last key state,
the action of every handled event, and how the loop stands. -/
def processBatch (K : ActionKeys) (controlKeys : List Nat) (desk : Nat → WinApi) :
    Nat → KeyState → List DeviceObjectData → Option (KeyState × List Action × Ending)
  | _, s, [] => some (s, [], Ending.running)
  | n, s, e :: rest =>
    match handleEvent K controlKeys s e with
    | Option.none => Option.none
    | some (s1, a) =>
      match performAction (desk n) a with
      | Ending.running =>
        match processBatch K controlKeys desk (n + 1) s1 rest with
        | Option.none => Option.none
        | some (s2, acts, en) => some (s2, a :: acts, en)
      | en => some (s1, [a], en)

/-- What the loop of `main` has done on the polls supplied so far: the key
state, the action of every handled event, the number of polls performed, and
how the loop stands. -/
structure LoopResult where
  state : KeyState
  actions : List Action
  polls : Nat
  ending : Ending
  deriving DecidableEq, Repr

/-- Lines 107-154, the outer loop `for { ... }` run on the results of the
successive calls `keyboard.GetDeviceData(32)`: `none` is a poll that returned
an error (`check(err)` panics), `some data` a successful poll; `n` is the
number of events handled before.  After the `return` of line 141 or a panic
of `reposition` no further poll is made. -/
def mainLoop (K : ActionKeys) (controlKeys : List Nat) (desk : Nat → WinApi) :
    Nat → KeyState → List (Option (List DeviceObjectData)) → Option LoopResult
  | _, s, [] => some ⟨s, [], 0, Ending.running⟩
  | _, _, Option.none :: _ => Option.none
  | n, s, some data :: later =>
    match processBatch K controlKeys desk n s data with
    | Option.none => Option.none
    | some (s1, acts, Ending.running) =>
      match mainLoop K controlKeys desk (n + data.length) s1 later with
      | Option.none => Option.none
      | some r => some ⟨r.state, acts ++ r.actions, r.polls + 1, r.ending⟩
    | some (s1, acts, en) => some ⟨s1, acts, 1, en⟩

/-- A desktop on which `GetMonitorInfoW` fails (it returns 0). -/
def noMonitorInfo : WinApi :=
  { getForegroundWindow := 7
    monitorFromWindow := fun _ _ => 1
    getMonitorInfo := fun _ info => (0, info)
    showWindow := fun _ _ => 1
    setWindowPos := fun _ _ _ _ _ _ _ => 1 }

/-- The pixels of the rectangle with corner `(x, y)`, width `w` and height `h`:
`[x, x+w) x [y, y+h)`. -/
def inRect (x y w h : Int) (p : Int × Int) : Bool :=
  decide (x ≤ p.1) && decide (p.1 < x + w) && decide (y ≤ p.2) && decide (p.2 < y + h)

/-- The pixels of the target rectangle that `reposition` requests for `pos`. -/
def inQuadrant (r : RECT) (pos : position) (p : Int × Int) : Bool :=
  inRect (targetGeometry r pos).1 (targetGeometry r pos).2.1 (targetGeometry r pos).2.2.1
    (targetGeometry r pos).2.2.2 p

/-- The pixels of the work area `[Left, Right) x [Top, Bottom)`. -/
def inWorkArea (r : RECT) (p : Int × Int) : Bool :=
  decide (r.Left ≤ p.1) && decide (p.1 < r.Right) && decide (r.Top ≤ p.2) &&
    decide (p.2 < r.Bottom)

/-! ## Basic facts about the update -/

theorem ActionKeys.ne (K : ActionKeys) :
    K.K_LEFT ≠ K.K_RIGHT ∧ K.K_LEFT ≠ K.K_UP ∧ K.K_LEFT ≠ K.K_DOWN ∧
    K.K_LEFT ≠ K.K_ESCAPE ∧ K.K_RIGHT ≠ K.K_UP ∧ K.K_RIGHT ≠ K.K_DOWN ∧
    K.K_RIGHT ≠ K.K_ESCAPE ∧ K.K_UP ≠ K.K_DOWN ∧ K.K_UP ≠ K.K_ESCAPE ∧
    K.K_DOWN ≠ K.K_ESCAPE := by
  have h := K.distinct
  simp only [List.nodup_cons, List.mem_cons, List.mem_singleton, not_or,
    List.not_mem_nil, not_false_eq_true, List.nodup_nil, and_true] at h
  obtain ⟨⟨h1, h2, h3, h4⟩, ⟨h5, h6, h7⟩, ⟨h8, h9⟩, h10⟩ := h
  exact ⟨h1, h2, h3, h4, h5, h6, h7, h8, h9, h10⟩

theorem setControlKeyDown_eq (ofs : Nat) (down : Bool) :
    ∀ (keys : List Nat) (pre suf : List Bool), suf.length = keys.length →
      setControlKeyDown ofs down keys pre.length (pre ++ suf) =
        some (pre ++ List.zipWith (fun key d => if ofs = key then down else d) keys suf) := by
  intro keys
  induction keys with
  | nil =>
    intro pre suf h
    cases suf with
    | nil => simp [setControlKeyDown]
    | cons d t => simp at h
  | cons key rest ih =>
    intro pre suf h
    cases suf with
    | nil => simp at h
    | cons d t =>
      have ht : t.length = rest.length := by simpa using h
      have h1 := ih (pre ++ [down]) t ht
      have h2 := ih (pre ++ [d]) t ht
      simp only [List.length_append, List.length_singleton, List.append_assoc,
        List.singleton_append] at h1 h2
      by_cases hk : ofs = key
      · have hlt : pre.length < (pre ++ d :: t).length := by simp
        have hset : (pre ++ d :: t).set pre.length down = pre ++ down :: t := by
          simp [List.set_append]
        simp only [setControlKeyDown, hk, if_true, hlt, hset, List.zipWith_cons_cons]
        rw [← hk]
        exact h1
      · simp only [setControlKeyDown, hk, if_false, List.zipWith_cons_cons]
        exact h2

theorem updateKeys_eq (K : ActionKeys) (keys : List Nat) (s : KeyState)
    (e : DeviceObjectData) (hwf : s.controlKeyDown.length = keys.length) :
    updateKeys K keys s e = some (nextState K keys s e) := by
  have h := setControlKeyDown_eq e.Ofs (e.Data != 0) keys [] s.controlKeyDown hwf
  simp only [List.length_nil, List.nil_append] at h
  obtain ⟨h1, h2, h3, h4, h5, h6, h7, h8, h9, h10⟩ := K.ne
  unfold updateKeys nextState
  simp only [h]
  by_cases hl : e.Ofs = K.K_LEFT
  · simp [hl, h1, h2, h3, h4]
  by_cases hr : e.Ofs = K.K_RIGHT
  · simp [hr, h1.symm, h5, h6, h7]
  by_cases hu : e.Ofs = K.K_UP
  · simp [hu, h2.symm, h5.symm, h8, h9]
  by_cases hd : e.Ofs = K.K_DOWN
  · simp [hd, h3.symm, h6.symm, h8.symm, h10]
  by_cases he : e.Ofs = K.K_ESCAPE
  · simp [he, h4.symm, h7.symm, h9.symm, h10.symm]
  simp [hl, hr, hu, hd, he]

theorem nextState_length (K : ActionKeys) (keys : List Nat) (s : KeyState)
    (e : DeviceObjectData) (hwf : s.controlKeyDown.length = keys.length) :
    (nextState K keys s e).controlKeyDown.length = keys.length := by
  simp [nextState, hwf]

theorem handleEvent_eq (K : ActionKeys) (keys : List Nat) (s : KeyState)
    (e : DeviceObjectData) (hwf : s.controlKeyDown.length = keys.length) :
    handleEvent K keys s e =
      some (nextState K keys s e, checkAction (nextState K keys s e)) := by
  simp [handleEvent, updateKeys_eq K keys s e hwf]

theorem allControlKeysDown_iff (l : List Bool) :
    allControlKeysDown l = true ↔ ∀ d ∈ l, d = true := by
  induction l with
  | nil => simp [allControlKeysDown]
  | cons d t ih => cases d <;> simp [allControlKeysDown, ih]

theorem allControlKeysDown_eq_false (l : List Bool) (h : false ∈ l) :
    allControlKeysDown l = false := by
  cases hh : allControlKeysDown l with
  | false => rfl
  | true => exact absurd ((allControlKeysDown_iff l).1 hh false h) (by decide)

theorem handleEvent_total (K : ActionKeys) (keys : List Nat) (s : KeyState)
    (e : DeviceObjectData) (hwf : s.controlKeyDown.length = keys.length) :
    ∃ s1, updateKeys K keys s e = some s1 ∧ s1.controlKeyDown.length = keys.length ∧
      handleEvent K keys s e = some (s1, checkAction s1) :=
  ⟨nextState K keys s e, updateKeys_eq K keys s e hwf, nextState_length K keys s e hwf,
    handleEvent_eq K keys s e hwf⟩

theorem reposition_returned (os : WinApi) (pos : position) (h : os.monitorReply.1 ≠ 0) :
    reposition os pos =
      Outcome.returned [WinCall.showWindow os.getForegroundWindow SW_RESTORE,
        WinCall.setWindowPos os.getForegroundWindow 0
          (targetGeometry os.monitorReply.2.RcWork pos).1
          (targetGeometry os.monitorReply.2.RcWork pos).2.1
          (targetGeometry os.monitorReply.2.RcWork pos).2.2.1
          (targetGeometry os.monitorReply.2.RcWork pos).2.2.2 setWindowPosFlags] := by
  unfold WinApi.monitorReply at h
  unfold reposition WinApi.monitorReply
  simp only [h, if_false]

theorem reposition_panicked (os : WinApi) (pos : position) (h : os.monitorReply.1 = 0) :
    reposition os pos = Outcome.panicked "getMonitorInfo failed" := by
  unfold WinApi.monitorReply at h
  unfold reposition
  simp only [h, if_true]

theorem performAction_none (os : WinApi) :
    performAction os Action.none = Ending.running := rfl

theorem performAction_terminate (os : WinApi) :
    performAction os Action.terminate = Ending.returned := rfl

theorem performAction_place_ok (os : WinApi) (pos : position) (h : os.monitorReply.1 ≠ 0) :
    performAction os (Action.place pos) = Ending.running := by
  simp only [performAction, reposition_returned os pos h]

theorem performAction_place_panicked (os : WinApi) (pos : position)
    (h : os.monitorReply.1 = 0) :
    performAction os (Action.place pos) = Ending.panicked "getMonitorInfo failed" := by
  simp only [performAction, reposition_panicked os pos h]

theorem processBatch_cons_running (K : ActionKeys) (keys : List Nat) (desk : Nat → WinApi)
    (n : Nat) (s s1 : KeyState) (e : DeviceObjectData) (rest : List DeviceObjectData)
    (a : Action) (h : handleEvent K keys s e = some (s1, a))
    (hp : performAction (desk n) a = Ending.running) :
    processBatch K keys desk n s (e :: rest) =
      (processBatch K keys desk (n + 1) s1 rest).map fun r => (r.1, a :: r.2.1, r.2.2) := by
  simp only [processBatch, h, hp]
  cases processBatch K keys desk (n + 1) s1 rest <;> rfl

theorem processBatch_cons_stop (K : ActionKeys) (keys : List Nat) (desk : Nat → WinApi)
    (n : Nat) (s s1 : KeyState) (e : DeviceObjectData) (rest : List DeviceObjectData)
    (a : Action) (h : handleEvent K keys s e = some (s1, a))
    (hp : performAction (desk n) a ≠ Ending.running) :
    processBatch K keys desk n s (e :: rest) = some (s1, [a], performAction (desk n) a) := by
  cases hpa : performAction (desk n) a with
  | running => exact absurd hpa hp
  | returned => simp only [processBatch, h, hpa]
  | panicked msg => simp only [processBatch, h, hpa]

theorem processBatch_cons_eq (K : ActionKeys) (keys : List Nat) (desk : Nat → WinApi)
    (n : Nat) (s : KeyState) (e : DeviceObjectData) (rest : List DeviceObjectData)
    (hwf : s.controlKeyDown.length = keys.length) :
    processBatch K keys desk n s (e :: rest) =
      if performAction (desk n) (checkAction (nextState K keys s e)) = Ending.running then
        (processBatch K keys desk (n + 1) (nextState K keys s e) rest).map
          fun r => (r.1, checkAction (nextState K keys s e) :: r.2.1, r.2.2)
      else
        some (nextState K keys s e, [checkAction (nextState K keys s e)],
          performAction (desk n) (checkAction (nextState K keys s e))) := by
  have hh := handleEvent_eq K keys s e hwf
  by_cases hp : performAction (desk n) (checkAction (nextState K keys s e)) = Ending.running
  · rw [if_pos hp]
    exact processBatch_cons_running K keys desk n s _ e rest _ hh hp
  · rw [if_neg hp]
    exact processBatch_cons_stop K keys desk n s _ e rest _ hh hp

theorem processBatch_singleton (K : ActionKeys) (keys : List Nat) (desk : Nat → WinApi)
    (n : Nat) (s : KeyState) (e : DeviceObjectData)
    (hwf : s.controlKeyDown.length = keys.length) :
    processBatch K keys desk n s [e] =
      some (nextState K keys s e, [checkAction (nextState K keys s e)],
        performAction (desk n) (checkAction (nextState K keys s e))) := by
  rw [processBatch_cons_eq K keys desk n s e [] hwf]
  by_cases hp : performAction (desk n) (checkAction (nextState K keys s e)) = Ending.running
  · rw [if_pos hp, hp]
    rfl
  · rw [if_neg hp]

/-! ## The decision taken on one event -/

/-- C1: on an event after whose update all control keys are down, Escape is
up and exactly one of the pairs Left+Up, Left+Down, Right+Up, Right+Down has
both keys down, the handler returns the updated state with exactly one
action, the placement of that pair (Left+Up: topLeft, Left+Down: bottomLeft,
Right+Up: topRight, Right+Down: bottomRight). -/
theorem single_pair_places (K : ActionKeys) (keys : List Nat) (s : KeyState)
    (e : DeviceObjectData) (hwf : s.controlKeyDown.length = keys.length) :
    ∃ s1 a, updateKeys K keys s e = some s1 ∧ handleEvent K keys s e = some (s1, a) ∧
      (allControlKeysDown s1.controlKeyDown = true → s1.escapeKeyDown = false →
        pairsDown s1 = 1 →
          (∃ q, a = Action.place q) ∧
          (s1.leftKeyDown = true ∧ s1.upKeyDown = true → a = Action.place position.topLeft) ∧
          (s1.leftKeyDown = true ∧ s1.downKeyDown = true →
            a = Action.place position.bottomLeft) ∧
          (s1.rightKeyDown = true ∧ s1.upKeyDown = true →
            a = Action.place position.topRight) ∧
          (s1.rightKeyDown = true ∧ s1.downKeyDown = true →
            a = Action.place position.bottomRight)) := by
  obtain ⟨s1, hu, _, hh⟩ := handleEvent_total K keys s e hwf
  refine ⟨s1, checkAction s1, hu, hh, ?_⟩
  intro harmed hesc hone
  unfold checkAction
  unfold pairsDown at hone
  rw [harmed, hesc]
  cases hl : s1.leftKeyDown <;> cases hr : s1.rightKeyDown <;>
    cases hu : s1.upKeyDown <;> cases hd : s1.downKeyDown <;>
    simp [hl, hr, hu, hd] at hone ⊢

/-- C1, witness: control keys held, Left held, Up pressed: one topLeft placement. -/
theorem single_pair_places_witness :
    ∃ s1 a, updateKeys di8 controlKeys ⟨[true, true], false, true, false, false, false⟩
        (keyDown 0xC8) = some s1 ∧
      handleEvent di8 controlKeys ⟨[true, true], false, true, false, false, false⟩
        (keyDown 0xC8) = some (s1, a) ∧
      allControlKeysDown s1.controlKeyDown = true ∧ s1.escapeKeyDown = false ∧
      pairsDown s1 = 1 ∧ s1.leftKeyDown = true ∧ s1.upKeyDown = true ∧
      a = Action.place position.topLeft := by
  obtain ⟨s1, a, hu, hh, h⟩ :=
    single_pair_places di8 controlKeys ⟨[true, true], false, true, false, false, false⟩
      (keyDown 0xC8) rfl
  have hs : s1 = ⟨[true, true], false, true, false, true, false⟩ := by
    have h0 : updateKeys di8 controlKeys ⟨[true, true], false, true, false, false, false⟩
        (keyDown 0xC8) = some ⟨[true, true], false, true, false, true, false⟩ := by decide
    rw [h0] at hu
    exact (Option.some.inj hu).symm
  subst hs
  exact ⟨_, a, hu, hh, by decide, by decide, by decide, by decide, by decide,
    (h (by decide) (by decide) (by decide)).2.1 ⟨by decide, by decide⟩⟩

/-- C2, counterexample: with both control keys, Left and Up held and Escape
up, a press of Down leaves two pairs down (Left+Up and Left+Down), and the
handler calls `reposition(topLeft)` on that event. -/
theorem overlapping_pairs_counterexample :
    handleEvent di8 controlKeys ⟨[true, true], false, true, false, true, false⟩
        (keyDown 0xD0) =
      some (⟨[true, true], false, true, false, true, true⟩,
        Action.place position.topLeft) ∧
    allControlKeysDown [true, true] = true ∧
    pairsDown ⟨[true, true], false, true, false, true, true⟩ = 2 := by
  decide

/-- C2, amended: on an event after whose update all control keys are down,
Escape is up and more than one pair has both keys down, the handler invokes
exactly one placement, that of the first pair that holds in the order
Left+Up, Left+Down, Right+Up, Right+Down. -/
theorem overlapping_pairs_place_first (K : ActionKeys) (keys : List Nat) (s : KeyState)
    (e : DeviceObjectData) (hwf : s.controlKeyDown.length = keys.length) :
    ∃ s1 a, updateKeys K keys s e = some s1 ∧ handleEvent K keys s e = some (s1, a) ∧
      (allControlKeysDown s1.controlKeyDown = true → s1.escapeKeyDown = false →
        1 < pairsDown s1 →
          (∃ q, a = Action.place q) ∧
          ((s1.leftKeyDown && s1.upKeyDown) = true → a = Action.place position.topLeft) ∧
          ((s1.leftKeyDown && s1.upKeyDown) = false →
            (s1.leftKeyDown && s1.downKeyDown) = true →
              a = Action.place position.bottomLeft) ∧
          ((s1.leftKeyDown && s1.upKeyDown) = false →
            (s1.leftKeyDown && s1.downKeyDown) = false →
              a = Action.place position.topRight)) := by
  obtain ⟨s1, hu, _, hh⟩ := handleEvent_total K keys s e hwf
  refine ⟨s1, checkAction s1, hu, hh, ?_⟩
  intro harmed hesc hone
  unfold checkAction
  unfold pairsDown at hone
  rw [harmed, hesc]
  cases hl : s1.leftKeyDown <;> cases hr : s1.rightKeyDown <;>
    cases hu : s1.upKeyDown <;> cases hd : s1.downKeyDown <;>
    simp [hl, hr, hu, hd] at hone ⊢

/-- C2, witness: Left, Up and Down held with both control keys: topLeft. -/
theorem overlapping_pairs_place_first_witness :
    ∃ s1 a, updateKeys di8 controlKeys ⟨[true, true], false, true, false, true, false⟩
        (keyDown 0xD0) = some s1 ∧
      handleEvent di8 controlKeys ⟨[true, true], false, true, false, true, false⟩
        (keyDown 0xD0) = some (s1, a) ∧
      allControlKeysDown s1.controlKeyDown = true ∧ s1.escapeKeyDown = false ∧
      1 < pairsDown s1 ∧ a = Action.place position.topLeft := by
  obtain ⟨s1, a, hu, hh, h⟩ :=
    overlapping_pairs_place_first di8 controlKeys
      ⟨[true, true], false, true, false, true, false⟩ (keyDown 0xD0) rfl
  have hs : s1 = ⟨[true, true], false, true, false, true, true⟩ := by
    have h0 : updateKeys di8 controlKeys ⟨[true, true], false, true, false, true, false⟩
        (keyDown 0xD0) = some ⟨[true, true], false, true, false, true, true⟩ := by decide
    rw [h0] at hu
    exact (Option.some.inj hu).symm
  subst hs
  exact ⟨_, a, hu, hh, by decide, by decide, by decide,
    (h (by decide) (by decide) (by decide)).2.1 (by decide)⟩

/-! ## Disarmed states -/

theorem mem_zip_zipWith (ofs : Nat) (down : Bool) (c : Nat)
    (h : ofs = c → down = false) :
    ∀ (keys : List Nat) (ckd : List Bool), (c, false) ∈ keys.zip ckd →
      (c, false) ∈ keys.zip
        (List.zipWith (fun key d => if ofs = key then down else d) keys ckd) := by
  intro keys
  induction keys with
  | nil => intro ckd hm; simp at hm
  | cons k ks ih =>
    intro ckd hm
    cases ckd with
    | nil => simp at hm
    | cons d ds =>
      simp only [List.zip_cons_cons, List.mem_cons, Prod.mk.injEq] at hm
      simp only [List.zipWith_cons_cons, List.zip_cons_cons, List.mem_cons, Prod.mk.injEq]
      rcases hm with ⟨hk, hd⟩ | hm
      · left
        refine ⟨hk, ?_⟩
        by_cases ho : ofs = k
        · simp [ho, h (ho.trans hk.symm)]
        · simp [ho, hd]
      · right
        exact ih ds hm

theorem mem_zip_zipWith_up (c : Nat) :
    ∀ (keys : List Nat) (ckd : List Bool), ckd.length = keys.length → c ∈ keys →
      (c, false) ∈ keys.zip
        (List.zipWith (fun key d => if c = key then false else d) keys ckd) := by
  intro keys
  induction keys with
  | nil => intro ckd _ hc; simp at hc
  | cons k ks ih =>
    intro ckd hlen hc
    cases ckd with
    | nil => simp at hlen
    | cons d ds =>
      simp only [List.zipWith_cons_cons, List.zip_cons_cons, List.mem_cons, Prod.mk.injEq]
      by_cases hk : c = k
      · left
        simp [hk]
      · right
        have hc1 : c ∈ ks := by
          rcases List.mem_cons.1 hc with h | h
          · exact absurd h hk
          · exact h
        exact ih ds (by simpa using hlen) hc1

theorem checkAction_disarmed (keys : List Nat) (s : KeyState) (c : Nat)
    (h : (c, false) ∈ keys.zip s.controlKeyDown) : checkAction s = Action.none := by
  have hf : false ∈ s.controlKeyDown := (List.of_mem_zip h).2
  simp [checkAction, allControlKeysDown_eq_false _ hf]

theorem processBatch_disarmed (K : ActionKeys) (keys : List Nat) (desk : Nat → WinApi)
    (c : Nat) :
    ∀ (es : List DeviceObjectData) (n : Nat) (s : KeyState),
      s.controlKeyDown.length = keys.length → (c, false) ∈ keys.zip s.controlKeyDown →
      (∀ e ∈ es, e.Ofs = c → e.Data = 0) →
      ∃ s2, processBatch K keys desk n s es =
        some (s2, List.replicate es.length Action.none, Ending.running) := by
  intro es
  induction es with
  | nil => intro n s _ _ _; exact ⟨s, rfl⟩
  | cons e rest ih =>
    intro n s hwf hm hes
    have hstep : (c, false) ∈ keys.zip (nextState K keys s e).controlKeyDown := by
      apply mem_zip_zipWith e.Ofs (e.Data != 0) c _ keys s.controlKeyDown hm
      intro hc
      simp [hes e (List.mem_cons_self _ _) hc]
    have hh := handleEvent_eq K keys s e hwf
    rw [checkAction_disarmed keys _ c hstep] at hh
    obtain ⟨s2, h2⟩ := ih (n + 1) (nextState K keys s e) (nextState_length K keys s e hwf)
      hstep (fun x hx => hes x (List.mem_cons_of_mem _ hx))
    refine ⟨s2, ?_⟩
    rw [processBatch_cons_running K keys desk n s _ e rest Action.none hh rfl, h2]
    rfl

/-- C3: when after the update of an event some control key is up, the handler
returns with no action (no placement, no termination), whatever the states of
Left, Right, Up, Down and Escape are.  In particular, with at least one
control key and neither Left nor Up a control key, Left-down then Up-down
from the initial state give no action. -/
theorem no_action_unless_armed (K : ActionKeys) (keys : List Nat) (s : KeyState)
    (e : DeviceObjectData) (hwf : s.controlKeyDown.length = keys.length) :
    (∃ s1 a, updateKeys K keys s e = some s1 ∧ handleEvent K keys s e = some (s1, a) ∧
      (false ∈ s1.controlKeyDown → a = Action.none)) ∧
    (keys ≠ [] → K.K_LEFT ∉ keys → K.K_UP ∉ keys →
      ∀ (desk : Nat → WinApi) (n : Nat),
        ∃ s2, processBatch K keys desk n (initialState keys)
            [keyDown K.K_LEFT, keyDown K.K_UP] =
          some (s2, [Action.none, Action.none], Ending.running)) := by
  constructor
  · obtain ⟨s1, hu, _, hh⟩ := handleEvent_total K keys s e hwf
    refine ⟨s1, checkAction s1, hu, hh, ?_⟩
    intro hf
    simp [checkAction, allControlKeysDown_eq_false _ hf]
  · intro hne hl hu desk n
    cases keys with
    | nil => exact absurd rfl hne
    | cons c ks =>
      have hm : (c, false) ∈ (c :: ks).zip (initialState (c :: ks)).controlKeyDown := by
        simp [initialState, List.replicate_succ]
      have hcl : K.K_LEFT ≠ c := fun h => hl (by simp [h])
      have hcu : K.K_UP ≠ c := fun h => hu (by simp [h])
      have := processBatch_disarmed K (c :: ks) desk c [keyDown K.K_LEFT, keyDown K.K_UP] n
        (initialState (c :: ks)) (by simp [initialState]) hm (by
          intro x hx hxc
          simp only [List.mem_cons, List.mem_singleton, List.not_mem_nil, or_false] at hx
          rcases hx with rfl | rfl
          · exact absurd hxc hcl
          · exact absurd hxc hcu)
      simpa using this

/-- C3, witness: from the initial state of the program (Left Control and Left
Windows both up) a press of Left leaves a control key up and gives no action,
and Left-down, Up-down give no action and leave the loop running. -/
theorem no_action_unless_armed_witness :
    (∃ s1 a, updateKeys di8 controlKeys (initialState controlKeys) (keyDown 0xCB) = some s1 ∧
      handleEvent di8 controlKeys (initialState controlKeys) (keyDown 0xCB) = some (s1, a) ∧
      false ∈ s1.controlKeyDown ∧ a = Action.none) ∧
    (∃ s2, processBatch di8 controlKeys (fun _ => noForegroundWindow) 0
        (initialState controlKeys) [keyDown 0xCB, keyDown 0xC8] =
      some (s2, [Action.none, Action.none], Ending.running)) := by
  obtain ⟨⟨s1, a, hu, hh, h⟩, h2⟩ :=
    no_action_unless_armed di8 controlKeys (initialState controlKeys) (keyDown 0xCB) rfl
  have hs : s1 = ⟨[false, false], false, true, false, false, false⟩ := by
    have h0 : updateKeys di8 controlKeys (initialState controlKeys) (keyDown 0xCB) =
        some ⟨[false, false], false, true, false, false, false⟩ := by decide
    rw [h0] at hu
    exact (Option.some.inj hu).symm
  subst hs
  exact ⟨⟨_, a, hu, hh, by decide, h (by decide)⟩,
    h2 (by decide) (by decide) (by decide) (fun _ => noForegroundWindow) 0⟩

/-- C4: when after the update of an event all control keys are down and
Escape is down, the handler signals termination and places nothing, whatever
directional keys are down.  With control keys A and B that are not action
keys, A-down, B-down, Escape-down from the initial state give no action, no
action, termination, and `main` has returned, on every desktop. -/
theorem terminate_has_priority (K : ActionKeys) (keys : List Nat) (s : KeyState)
    (e : DeviceObjectData) (hwf : s.controlKeyDown.length = keys.length) :
    (∃ s1 a, updateKeys K keys s e = some s1 ∧ handleEvent K keys s e = some (s1, a) ∧
      (allControlKeysDown s1.controlKeyDown = true → s1.escapeKeyDown = true →
        a = Action.terminate)) ∧
    (∀ A B : Nat, A ∉ K.all → B ∉ K.all →
      ∀ (desk : Nat → WinApi) (n : Nat),
        ∃ s2, processBatch K [A, B] desk n (initialState [A, B])
            [keyDown A, keyDown B, keyDown K.K_ESCAPE] =
          some (s2, [Action.none, Action.none, Action.terminate], Ending.returned)) := by
  constructor
  · obtain ⟨s1, hu, _, hh⟩ := handleEvent_total K keys s e hwf
    refine ⟨s1, checkAction s1, hu, hh, ?_⟩
    intro harmed hesc
    simp [checkAction, harmed, hesc]
  · intro A B hA hB desk n
    simp only [ActionKeys.all, List.mem_cons, List.mem_singleton, not_or, List.not_mem_nil,
      or_false] at hA hB
    obtain ⟨a1, a2, a3, a4, a5⟩ := hA
    obtain ⟨b1, b2, b3, b4, b5⟩ := hB
    have e1 : K.K_ESCAPE ≠ A := fun h => a5 h.symm
    have e2 : K.K_ESCAPE ≠ B := fun h => b5 h.symm
    obtain ⟨h1, h2, h3, h4, h5, h6, h7, h8, h9, h10⟩ := K.ne
    rw [processBatch_cons_eq _ _ _ _ _ _ _ (by simp [initialState])]
    rw [processBatch_cons_eq _ _ _ _ _ _ _ (by simp [initialState, nextState])]
    rw [processBatch_singleton _ _ _ _ _ _ (by simp [initialState, nextState])]
    by_cases hab : A = B
    · subst hab
      simp [nextState, initialState, checkAction, allControlKeysDown, performAction,
        keyDown, *]
    · have hba : B ≠ A := fun h => hab h.symm
      simp [nextState, initialState, checkAction, allControlKeysDown, performAction,
        keyDown, *]

/-- C4, witness: with Left Control, Left Windows, Left and Up held, a press of
Escape terminates; and Control-down, Windows-down, Escape-down terminates
with no placement. -/
theorem terminate_has_priority_witness :
    (∃ s1 a, updateKeys di8 controlKeys ⟨[true, true], false, true, false, true, false⟩
        (keyDown 0x01) = some s1 ∧
      handleEvent di8 controlKeys ⟨[true, true], false, true, false, true, false⟩
        (keyDown 0x01) = some (s1, a) ∧
      allControlKeysDown s1.controlKeyDown = true ∧ s1.escapeKeyDown = true ∧
      s1.leftKeyDown = true ∧ s1.upKeyDown = true ∧ a = Action.terminate) ∧
    (∃ s2, processBatch di8 [0x1D, 0xDB] (fun _ => noMonitorInfo) 0
        (initialState [0x1D, 0xDB]) [keyDown 0x1D, keyDown 0xDB, keyDown di8.K_ESCAPE] =
      some (s2, [Action.none, Action.none, Action.terminate], Ending.returned)) := by
  obtain ⟨⟨s1, a, hu, hh, h⟩, h2⟩ :=
    terminate_has_priority di8 controlKeys ⟨[true, true], false, true, false, true, false⟩
      (keyDown 0x01) rfl
  have hs : s1 = ⟨[true, true], true, true, false, true, false⟩ := by
    have h0 : updateKeys di8 controlKeys ⟨[true, true], false, true, false, true, false⟩
        (keyDown 0x01) = some ⟨[true, true], true, true, false, true, false⟩ := by decide
    rw [h0] at hu
    exact (Option.some.inj hu).symm
  subst hs
  exact ⟨⟨_, a, hu, hh, by decide, by decide, by decide, by decide,
    h (by decide) (by decide)⟩,
    h2 0x1D 0xDB (by decide) (by decide) (fun _ => noMonitorInfo) 0⟩

/-! ## Sequences of events from the initial state -/

theorem latest_nil (k : Nat) : latest [] k = Option.none := rfl

theorem latest_concat (es : List DeviceObjectData) (e : DeviceObjectData) (k : Nat) :
    latest (es ++ [e]) k = if e.Ofs = k then some (e.Data != 0) else latest es k := by
  unfold latest
  by_cases h : e.Ofs = k
  · simp [List.find?_cons, h]
  · simp [List.find?_cons, h]

theorem applyEvents_concat (K : ActionKeys) (keys : List Nat) :
    ∀ (es : List DeviceObjectData) (s : KeyState) (e : DeviceObjectData),
      applyEvents K keys s (es ++ [e]) =
        (applyEvents K keys s es).bind fun s1 => updateKeys K keys s1 e := by
  intro es
  induction es with
  | nil =>
    intro s e
    simp only [List.nil_append, applyEvents, Option.some_bind]
    cases updateKeys K keys s e <;> rfl
  | cons x rest ih =>
    intro s e
    simp only [List.cons_append, applyEvents]
    cases updateKeys K keys s x with
    | none => rfl
    | some s1 => exact ih s1 e

theorem stateAfter_nil (K : ActionKeys) (keys : List Nat) :
    stateAfter K keys [] = initialState keys := by
  simp [stateAfter, initialState, latest_nil, List.map_const']

theorem stateAfter_length (K : ActionKeys) (keys : List Nat) (es : List DeviceObjectData) :
    (stateAfter K keys es).controlKeyDown.length = keys.length := by
  simp [stateAfter]

theorem nextState_stateAfter (K : ActionKeys) (keys : List Nat)
    (es : List DeviceObjectData) (e : DeviceObjectData) :
    nextState K keys (stateAfter K keys es) e = stateAfter K keys (es ++ [e]) := by
  unfold nextState stateAfter
  simp only [latest_concat, List.zipWith_map_right, List.zipWith_same]
  congr 1
  · apply List.map_congr_left
    intro k _
    by_cases h : e.Ofs = k <;> simp [h]
  · by_cases h : e.Ofs = K.K_ESCAPE <;> simp [h]
  · by_cases h : e.Ofs = K.K_LEFT <;> simp [h]
  · by_cases h : e.Ofs = K.K_RIGHT <;> simp [h]
  · by_cases h : e.Ofs = K.K_UP <;> simp [h]
  · by_cases h : e.Ofs = K.K_DOWN <;> simp [h]

theorem applyEvents_initialState (K : ActionKeys) (keys : List Nat)
    (es : List DeviceObjectData) :
    applyEvents K keys (initialState keys) es = some (stateAfter K keys es) := by
  induction es using List.reverseRecOn with
  | nil => simp [applyEvents, stateAfter_nil]
  | append_singleton es e ih =>
    rw [applyEvents_concat, ih, Option.some_bind,
      updateKeys_eq K keys _ e (stateAfter_length K keys es), nextState_stateAfter]

theorem armed_stateAfter (K : ActionKeys) (keys : List Nat) (es : List DeviceObjectData) :
    allControlKeysDown (stateAfter K keys es).controlKeyDown = true ↔
      ∀ k ∈ keys, latest es k = some true := by
  simp [allControlKeysDown_iff, stateAfter]

theorem processBatch_total (K : ActionKeys) (keys : List Nat) (desk : Nat → WinApi) :
    ∀ (es : List DeviceObjectData) (n : Nat) (s : KeyState),
      s.controlKeyDown.length = keys.length →
        ∃ r, processBatch K keys desk n s es = some r := by
  intro es
  induction es with
  | nil => intro n s _; exact ⟨(s, [], Ending.running), rfl⟩
  | cons e rest ih =>
    intro n s hwf
    rw [processBatch_cons_eq K keys desk n s e rest hwf]
    by_cases hp : performAction (desk n) (checkAction (nextState K keys s e)) = Ending.running
    · rw [if_pos hp]
      obtain ⟨r, hr⟩ := ih (n + 1) (nextState K keys s e) (nextState_length K keys s e hwf)
      rw [hr]; exact ⟨_, rfl⟩
    · rw [if_neg hp]; exact ⟨_, rfl⟩

theorem processBatch_state (K : ActionKeys) (keys : List Nat) (desk : Nat → WinApi) :
    ∀ (es : List DeviceObjectData) (n : Nat) (s s2 : KeyState) (acts : List Action)
      (en : Ending), processBatch K keys desk n s es = some (s2, acts, en) →
        applyEvents K keys s (es.take acts.length) = some s2 ∧
        (en = Ending.running → acts.length = es.length) := by
  intro es
  induction es with
  | nil =>
    intro n s s2 acts en h
    simp only [processBatch, Option.some.injEq, Prod.mk.injEq] at h
    obtain ⟨h1, h2, _⟩ := h
    subst h1 h2
    exact ⟨rfl, fun _ => rfl⟩
  | cons e rest ih =>
    intro n s s2 acts en h
    cases hu : updateKeys K keys s e with
    | none => simp [processBatch, handleEvent, hu] at h
    | some s1 =>
      have hh : handleEvent K keys s e = some (s1, checkAction s1) := by
        simp [handleEvent, hu]
      by_cases hp : performAction (desk n) (checkAction s1) = Ending.running
      · rw [processBatch_cons_running K keys desk n s s1 e rest _ hh hp] at h
        cases hr : processBatch K keys desk (n + 1) s1 rest with
        | none => simp [hr] at h
        | some r =>
          obtain ⟨s3, acts3, en3⟩ := r
          simp only [hr, Option.map_some', Option.some.injEq, Prod.mk.injEq] at h
          obtain ⟨h1, h2, h3⟩ := h
          obtain ⟨i1, i2⟩ := ih (n + 1) s1 s3 acts3 en3 hr
          subst h1 h2 h3
          refine ⟨?_, ?_⟩
          · simp only [List.length_cons, List.take_succ_cons, applyEvents, hu]
            exact i1
          · intro he
            simp only [List.length_cons, i2 he]
      · rw [processBatch_cons_stop K keys desk n s s1 e rest _ hh hp] at h
        simp only [Option.some.injEq, Prod.mk.injEq] at h
        obtain ⟨h1, h2, h3⟩ := h
        subst h1 h2 h3
        refine ⟨?_, ?_⟩
        · simp [applyEvents, hu]
        · intro he
          exact absurd he hp

theorem find?_ext (p q : DeviceObjectData → Bool) :
    ∀ l : List DeviceObjectData, (∀ x ∈ l, p x = q x) → l.find? p = l.find? q := by
  intro l
  induction l with
  | nil => intro _; rfl
  | cons x t ih =>
    intro h
    have hx := h x (List.mem_cons_self _ _)
    have ht := ih fun y hy => h y (List.mem_cons_of_mem _ hy)
    simp only [List.find?_cons, hx, ht]

theorem latest_filter (keys : List Nat) (es : List DeviceObjectData) (k : Nat)
    (hk : k ∈ keys) :
    latest (es.filter fun e => decide (e.Ofs ∈ keys)) k = latest es k := by
  unfold latest
  rw [← List.filter_reverse, List.find?_filter]
  congr 1
  apply find?_ext
  intro x _
  by_cases h : x.Ofs = k
  · simp [h, hk]
  · simp [h]

/-- C5: for every list of control keys and every finite sequence of events
applied in order from the all-false initial state, the updates succeed and the
armed test on the resulting state is true exactly when every control key has a
most recent event in the sequence and that event is a press.  The handler
loop never fails on these events; its key state is the one after the events
it has handled, and so this very state when it has handled all of them (in
particular when it is still running); and events of other keys, wherever
they are interleaved, do not change the armed test (it depends only on the
subsequence of control-key events). -/
theorem armed_iff_latest_down (K : ActionKeys) (keys : List Nat)
    (es : List DeviceObjectData) :
    ∃ s, applyEvents K keys (initialState keys) es = some s ∧
      (allControlKeysDown s.controlKeyDown = true ↔
        ∀ k ∈ keys, latest es k = some true) ∧
      (∀ (desk : Nat → WinApi) (n : Nat),
        ∃ r, processBatch K keys desk n (initialState keys) es = some r) ∧
      (∀ (desk : Nat → WinApi) (n : Nat) s2 acts en,
        processBatch K keys desk n (initialState keys) es = some (s2, acts, en) →
          applyEvents K keys (initialState keys) (es.take acts.length) = some s2 ∧
          (acts.length = es.length → s2 = s) ∧
          (en = Ending.running → acts.length = es.length)) ∧
      (∀ es2 : List DeviceObjectData,
        (es2.filter fun e => decide (e.Ofs ∈ keys)) =
          (es.filter fun e => decide (e.Ofs ∈ keys)) →
        ∃ s2, applyEvents K keys (initialState keys) es2 = some s2 ∧
          allControlKeysDown s2.controlKeyDown = allControlKeysDown s.controlKeyDown) := by
  refine ⟨stateAfter K keys es, applyEvents_initialState K keys es,
    armed_stateAfter K keys es, ?_, ?_, ?_⟩
  · intro desk n
    exact processBatch_total K keys desk es n (initialState keys) (by simp [initialState])
  · intro desk n s2 acts en h
    obtain ⟨h1, h2⟩ := processBatch_state K keys desk es n (initialState keys) s2 acts en h
    refine ⟨h1, ?_, h2⟩
    intro hl
    rw [hl, List.take_length, applyEvents_initialState] at h1
    exact (Option.some.inj h1).symm
  · intro es2 hf
    refine ⟨stateAfter K keys es2, applyEvents_initialState K keys es2, ?_⟩
    rw [Bool.eq_iff_iff, armed_stateAfter, armed_stateAfter]
    constructor
    · intro h k hk
      rw [← latest_filter keys es k hk, ← hf, latest_filter keys es2 k hk]
      exact h k hk
    · intro h k hk
      rw [← latest_filter keys es2 k hk, hf, latest_filter keys es k hk]
      exact h k hk

/-! ## Frame of the update, disarming, and the two-key scenario -/

theorem zipWith_of_not_mem (ofs : Nat) (down : Bool) :
    ∀ (keys : List Nat) (ckd : List Bool), ckd.length = keys.length → ofs ∉ keys →
      List.zipWith (fun key d => if ofs = key then down else d) keys ckd = ckd := by
  intro keys
  induction keys with
  | nil =>
    intro ckd h _
    cases ckd with
    | nil => rfl
    | cons d t => simp at h
  | cons k ks ih =>
    intro ckd h hn
    cases ckd with
    | nil => simp at h
    | cons d t =>
      simp only [List.mem_cons, not_or] at hn
      simp only [List.zipWith_cons_cons, hn.1, if_false]
      rw [ih t (by simpa using h) hn.2]

/-- C6: one update succeeds on every key state with one slot per control key;
afterwards every tracked entry whose key is the event's key holds the event's
value and every other tracked entry is unchanged; an event of an untracked
key leaves the whole key state unchanged. -/
theorem update_touches_only_event_key (K : ActionKeys) (keys : List Nat) (s : KeyState)
    (e : DeviceObjectData) (hwf : s.controlKeyDown.length = keys.length) :
    ∃ s1, updateKeys K keys s e = some s1 ∧
      s1.controlKeyDown.length = s.controlKeyDown.length ∧
      (∀ (j : Nat) (key : Nat), keys[j]? = some key →
        s1.controlKeyDown[j]? =
          if key = e.Ofs then some (e.Data != 0) else s.controlKeyDown[j]?) ∧
      s1.leftKeyDown = (if K.K_LEFT = e.Ofs then (e.Data != 0) else s.leftKeyDown) ∧
      s1.rightKeyDown = (if K.K_RIGHT = e.Ofs then (e.Data != 0) else s.rightKeyDown) ∧
      s1.upKeyDown = (if K.K_UP = e.Ofs then (e.Data != 0) else s.upKeyDown) ∧
      s1.downKeyDown = (if K.K_DOWN = e.Ofs then (e.Data != 0) else s.downKeyDown) ∧
      s1.escapeKeyDown = (if K.K_ESCAPE = e.Ofs then (e.Data != 0) else s.escapeKeyDown) ∧
      (e.Ofs ∉ keys → e.Ofs ∉ K.all → s1 = s) := by
  refine ⟨nextState K keys s e, updateKeys_eq K keys s e hwf, ?_, ?_, ?_, ?_, ?_, ?_, ?_, ?_⟩
  · simp [nextState, hwf]
  · intro j key hj
    have hjl : j < s.controlKeyDown.length := by
      rw [hwf]
      exact (List.getElem?_eq_some_iff.1 hj).1
    simp only [nextState, List.getElem?_zipWith, hj, List.getElem?_eq_getElem hjl]
    by_cases h : key = e.Ofs
    · simp [h]
    · have h2 : ¬ e.Ofs = key := fun x => h x.symm
      simp [h, h2]
  · simp only [nextState, eq_comm]
  · simp only [nextState, eq_comm]
  · simp only [nextState, eq_comm]
  · simp only [nextState, eq_comm]
  · simp only [nextState, eq_comm]
  · intro hk ha
    simp only [ActionKeys.all, List.mem_cons, List.mem_singleton, not_or, List.not_mem_nil,
      or_false] at ha
    obtain ⟨a1, a2, a3, a4, a5⟩ := ha
    simp only [nextState, zipWith_of_not_mem e.Ofs _ keys s.controlKeyDown hwf hk, a1, a2, a3,
      a4, a5, if_false]

/-- C6, witness: in the program's initial state a press of Left Control sets
slot 0 and nothing else, and a press of the untracked key 0x1E leaves the
state unchanged. -/
theorem update_touches_only_event_key_witness :
    updateKeys di8 controlKeys (initialState controlKeys) (keyDown 0x1D) =
      some ⟨[true, false], false, false, false, false, false⟩ ∧
    updateKeys di8 controlKeys (initialState controlKeys) (keyDown 0x1E) =
      some (initialState controlKeys) := by
  obtain ⟨s1, h1, _, _, _, _, _, _, _, h⟩ :=
    update_touches_only_event_key di8 controlKeys (initialState controlKeys)
      (keyDown 0x1E) rfl
  rw [h (by decide) (by decide)] at h1
  exact ⟨by decide, h1⟩

/-- C8: after a release of a control key `c`, the release itself and every
later event up to the next press of `c` are handled with no action: no
placement and no termination, whatever directional or Escape events occur,
and the loop goes on. -/
theorem release_disarms (K : ActionKeys) (keys : List Nat) (desk : Nat → WinApi) (n : Nat)
    (s : KeyState) (c : Nat) (es : List DeviceObjectData)
    (hwf : s.controlKeyDown.length = keys.length)
    (hc : c ∈ keys) (hes : ∀ e ∈ es, e.Ofs = c → e.Data = 0) :
    ∃ s2, processBatch K keys desk n s (keyUp c :: es) =
      some (s2, List.replicate (es.length + 1) Action.none, Ending.running) := by
  have hm : (c, false) ∈ keys.zip (nextState K keys s (keyUp c)).controlKeyDown := by
    have := mem_zip_zipWith_up c keys s.controlKeyDown hwf hc
    simpa [nextState, keyUp] using this
  have hh := handleEvent_eq K keys s (keyUp c) hwf
  rw [checkAction_disarmed keys _ c hm] at hh
  obtain ⟨s2, h2⟩ := processBatch_disarmed K keys desk c es (n + 1)
    (nextState K keys s (keyUp c)) (nextState_length K keys s _ hwf) hm hes
  refine ⟨s2, ?_⟩
  rw [processBatch_cons_running K keys desk n s _ _ es Action.none hh rfl, h2]
  rfl

/-- C8, witness: with the whole topLeft chord held, Left Windows is released;
the release, a press of Down, a release and a press of Up and a press of
Escape are all handled with no action. -/
theorem release_disarms_witness :
    ∃ s2, processBatch di8 controlKeys (fun _ => noMonitorInfo) 0
        ⟨[true, true], false, true, false, true, false⟩
        (keyUp 0xDB :: [keyDown 0xD0, keyUp 0xC8, keyDown 0xC8, keyDown 0x01]) =
      some (s2, [Action.none, Action.none, Action.none, Action.none, Action.none],
        Ending.running) :=
  release_disarms di8 controlKeys (fun _ => noMonitorInfo) 0
    ⟨[true, true], false, true, false, true, false⟩ 0xDB
    [keyDown 0xD0, keyUp 0xC8, keyDown 0xC8, keyDown 0x01] rfl (by decide) (by decide)

/-- C9, counterexample: on a desktop on which `GetMonitorInfoW` fails, the
events Control-down, Windows-down, Left-down, Up-down, Up-up, Down-down give
none, none, none, place(topLeft) and then the panic of `reposition` stops the
process: Up-up and Down-down are not handled and bottomLeft is never placed. -/
theorem scenario_counterexample :
    processBatch di8 [0x1D, 0xDB] (fun _ => noMonitorInfo) 0 (initialState [0x1D, 0xDB])
        [keyDown 0x1D, keyDown 0xDB, keyDown 0xCB, keyDown 0xC8, keyUp 0xC8, keyDown 0xD0] =
      some (⟨[true, true], false, true, false, true, false⟩,
        [Action.none, Action.none, Action.none, Action.place position.topLeft],
        Ending.panicked "getMonitorInfo failed") := by
  decide

/-- C9, amended: with control keys A and B that are not action keys, the
events A-down, B-down, Left-down, Up-down, Up-up, Down-down from the initial
state give the actions none, none, none, place(topLeft), none,
place(bottomLeft), provided the call `reposition(topLeft)` made on Up-down
returns (`GetMonitorInfoW` succeeds); when that call panics, the process
stops on Up-down after none, none, none, place(topLeft). -/
theorem scenario_topLeft_then_bottomLeft (K : ActionKeys) (A B : Nat)
    (desk : Nat → WinApi) (n : Nat) (hA : A ∉ K.all) (hB : B ∉ K.all) :
    ((desk (n + 3)).monitorReply.1 ≠ 0 →
      ∃ s2, processBatch K [A, B] desk n (initialState [A, B])
          [keyDown A, keyDown B, keyDown K.K_LEFT, keyDown K.K_UP, keyUp K.K_UP,
            keyDown K.K_DOWN] =
        some (s2, [Action.none, Action.none, Action.none, Action.place position.topLeft,
          Action.none, Action.place position.bottomLeft],
          performAction (desk (n + 5)) (Action.place position.bottomLeft))) ∧
    ((desk (n + 3)).monitorReply.1 = 0 →
      ∃ s2, processBatch K [A, B] desk n (initialState [A, B])
          [keyDown A, keyDown B, keyDown K.K_LEFT, keyDown K.K_UP, keyUp K.K_UP,
            keyDown K.K_DOWN] =
        some (s2, [Action.none, Action.none, Action.none, Action.place position.topLeft],
          Ending.panicked "getMonitorInfo failed")) := by
  simp only [ActionKeys.all, List.mem_cons, List.mem_singleton, not_or, List.not_mem_nil,
    or_false] at hA hB
  obtain ⟨a1, a2, a3, a4, a5⟩ := hA
  obtain ⟨b1, b2, b3, b4, b5⟩ := hB
  have a1s := Ne.symm a1
  have a2s := Ne.symm a2
  have a3s := Ne.symm a3
  have a4s := Ne.symm a4
  have b1s := Ne.symm b1
  have b2s := Ne.symm b2
  have b3s := Ne.symm b3
  have b4s := Ne.symm b4
  obtain ⟨h1, h2, h3, h4, h5, h6, h7, h8, h9, h10⟩ := K.ne
  have h2s := h2.symm
  have h3s := h3.symm
  have h8s := h8.symm
  have h1s := h1.symm
  have h5s := h5.symm
  have h6s := h6.symm
  rw [processBatch_cons_eq _ _ _ _ _ _ _ (by simp [initialState])]
  rw [processBatch_cons_eq _ _ _ _ _ _ _ (by simp [initialState, nextState])]
  rw [processBatch_cons_eq _ _ _ _ _ _ _ (by simp [initialState, nextState])]
  rw [processBatch_cons_eq _ _ _ _ _ _ _ (by simp [initialState, nextState])]
  rw [processBatch_cons_eq _ _ _ _ _ _ _ (by simp [initialState, nextState])]
  rw [processBatch_singleton _ _ _ _ _ _ (by simp [initialState, nextState])]
  constructor
  · intro hret
    have hq : performAction (desk (n + 1 + 1 + 1)) (Action.place position.topLeft) =
        Ending.running := performAction_place_ok _ _ hret
    refine ⟨⟨[true, true], false, true, false, false, true⟩, ?_⟩
    show _ = some (_, _,
      performAction (desk (n + 1 + 1 + 1 + 1 + 1)) (Action.place position.bottomLeft))
    by_cases hab : A = B
    · subst hab
      simp [nextState, initialState, checkAction, allControlKeysDown, performAction_none,
        keyDown, keyUp, *]
    · have hba : B ≠ A := fun h => hab h.symm
      simp [nextState, initialState, checkAction, allControlKeysDown, performAction_none,
        keyDown, keyUp, *]
  · intro hfail
    have hq : performAction (desk (n + 1 + 1 + 1)) (Action.place position.topLeft) =
        Ending.panicked "getMonitorInfo failed" := performAction_place_panicked _ _ hfail
    refine ⟨⟨[true, true], false, true, false, true, false⟩, ?_⟩
    by_cases hab : A = B
    · subst hab
      simp [nextState, initialState, checkAction, allControlKeysDown, performAction_none,
        keyDown, keyUp, *]
    · have hba : B ≠ A := fun h => hab h.symm
      simp [nextState, initialState, checkAction, allControlKeysDown, performAction_none,
        keyDown, keyUp, *]

/-- C9, witness: the scenario with the program's control keys Left Control
and Left Windows on a desktop on which every call succeeds. -/
theorem scenario_topLeft_then_bottomLeft_witness :
    ∃ s2, processBatch di8 [0x1D, 0xDB] (fun _ => desktop 7 ⟨0, 0, 1920, 1040⟩) 0
        (initialState [0x1D, 0xDB])
        [keyDown 0x1D, keyDown 0xDB, keyDown di8.K_LEFT, keyDown di8.K_UP, keyUp di8.K_UP,
          keyDown di8.K_DOWN] =
      some (s2, [Action.none, Action.none, Action.none, Action.place position.topLeft,
        Action.none, Action.place position.bottomLeft],
        performAction (desktop 7 ⟨0, 0, 1920, 1040⟩) (Action.place position.bottomLeft)) :=
  (scenario_topLeft_then_bottomLeft di8 0x1D 0xDB (fun _ => desktop 7 ⟨0, 0, 1920, 1040⟩) 0
    (by decide) (by decide)).1 (by decide)

/-! ## Re-firing while a chord is held -/

theorem checkAction_topLeft (s : KeyState) (harmed : allControlKeysDown s.controlKeyDown = true)
    (hesc : s.escapeKeyDown = false) (hl : s.leftKeyDown = true) (hu : s.upKeyDown = true) :
    checkAction s = Action.place position.topLeft := by
  simp [checkAction, harmed, hesc, hl, hu]

theorem allControlKeysDown_zipWith_down (ofs : Nat) :
    ∀ (keys : List Nat) (ckd : List Bool), allControlKeysDown ckd = true →
      allControlKeysDown
        (List.zipWith (fun key d => if ofs = key then true else d) keys ckd) = true := by
  intro keys
  induction keys with
  | nil => intro ckd _; simp [allControlKeysDown]
  | cons k ks ih =>
    intro ckd h
    cases ckd with
    | nil => simp [allControlKeysDown]
    | cons d t =>
      cases d with
      | false => simp [allControlKeysDown] at h
      | true =>
        have ht : allControlKeysDown t = true := by simpa [allControlKeysDown] using h
        simp only [List.zipWith_cons_cons, ite_self, allControlKeysDown, Bool.not_true,
          Bool.false_eq_true, if_false]
        exact ih t ht

/-- C10: in a key state with all control keys, Left and Up down and Escape
up, every further event that changes none of those states is handled with the
topLeft placement again: so every event of Right or Down that is not a
control key, every press of a key other than Escape (a repeated press of a
held key among them), and every event of an untracked key. -/
theorem held_chord_refires (K : ActionKeys) (keys : List Nat) (s : KeyState)
    (e : DeviceObjectData) (hwf : s.controlKeyDown.length = keys.length)
    (harmed : allControlKeysDown s.controlKeyDown = true) (hl : s.leftKeyDown = true)
    (hu : s.upKeyDown = true) (hesc : s.escapeKeyDown = false) :
    ∃ s1 a, updateKeys K keys s e = some s1 ∧ handleEvent K keys s e = some (s1, a) ∧
      ((s1.controlKeyDown = s.controlKeyDown ∧ s1.leftKeyDown = s.leftKeyDown ∧
          s1.upKeyDown = s.upKeyDown ∧ s1.escapeKeyDown = s.escapeKeyDown) →
        a = Action.place position.topLeft) ∧
      (e.Ofs ∉ keys → (e.Ofs = K.K_RIGHT ∨ e.Ofs = K.K_DOWN) →
        a = Action.place position.topLeft) ∧
      (e.Data ≠ 0 → e.Ofs ≠ K.K_ESCAPE → a = Action.place position.topLeft) ∧
      (e.Ofs ∉ keys → e.Ofs ∉ K.all → a = Action.place position.topLeft) := by
  obtain ⟨h1, h2, h3, h4, h5, h6, h7, h8, h9, h10⟩ := K.ne
  refine ⟨nextState K keys s e, checkAction (nextState K keys s e),
    updateKeys_eq K keys s e hwf, handleEvent_eq K keys s e hwf, ?_, ?_, ?_, ?_⟩
  · rintro ⟨hc, hl1, hu1, he1⟩
    exact checkAction_topLeft _ (by rw [hc]; exact harmed) (by rw [he1]; exact hesc)
      (by rw [hl1]; exact hl) (by rw [hu1]; exact hu)
  · intro hk hrd
    apply checkAction_topLeft
    · simpa [nextState, zipWith_of_not_mem e.Ofs _ keys s.controlKeyDown hwf hk] using harmed
    · rcases hrd with h | h <;> simp [nextState, h, h7, h10, hesc]
    · rcases hrd with h | h <;> simp [nextState, h, h1.symm, h3.symm, hl]
    · rcases hrd with h | h <;> simp [nextState, h, h5, h8.symm, hu]
  · intro hd he
    have hdd : (e.Data != 0) = true := by simpa using hd
    apply checkAction_topLeft
    · simp only [nextState, hdd]
      exact allControlKeysDown_zipWith_down e.Ofs keys s.controlKeyDown harmed
    · simp [nextState, he, hesc]
    · simp [nextState, hdd, hl]
    · simp [nextState, hdd, hu]
  · intro hk ha
    simp only [ActionKeys.all, List.mem_cons, List.mem_singleton, not_or, List.not_mem_nil,
      or_false] at ha
    obtain ⟨a1, a2, a3, a4, a5⟩ := ha
    apply checkAction_topLeft
    · simpa [nextState, zipWith_of_not_mem e.Ofs _ keys s.controlKeyDown hwf hk] using harmed
    · simp [nextState, a5, hesc]
    · simp [nextState, a1, hl]
    · simp [nextState, a3, hu]

/-- C10, witness: with Left Control, Left Windows, Left and Up held, a press
of Right is handled with the topLeft placement. -/
theorem held_chord_refires_witness :
    ∃ s1 a, updateKeys di8 controlKeys ⟨[true, true], false, true, false, true, false⟩
        (keyDown 0xCD) = some s1 ∧
      handleEvent di8 controlKeys ⟨[true, true], false, true, false, true, false⟩
        (keyDown 0xCD) = some (s1, a) ∧
      s1 = ⟨[true, true], false, true, true, true, false⟩ ∧
      a = Action.place position.topLeft := by
  obtain ⟨s1, a, hu, hh, _, h, _, _⟩ :=
    held_chord_refires di8 controlKeys ⟨[true, true], false, true, false, true, false⟩
      (keyDown 0xCD) rfl (by decide) rfl rfl rfl
  have hs : s1 = ⟨[true, true], false, true, true, true, false⟩ := by
    have h0 : updateKeys di8 controlKeys ⟨[true, true], false, true, false, true, false⟩
        (keyDown 0xCD) = some ⟨[true, true], false, true, true, true, false⟩ := by decide
    rw [h0] at hu
    exact (Option.some.inj hu).symm
  exact ⟨s1, a, hu, hh, hs, h (by decide) (Or.inl (by decide))⟩

/-! ## A chord completed in any order -/

theorem latest_of_presses (k : Nat) :
    ∀ p : List DeviceObjectData, (∀ e ∈ p, e.Data ≠ 0) →
      (latest p k = some true ↔ k ∈ p.map fun e => e.Ofs) := by
  intro p
  induction p using List.reverseRecOn with
  | nil => intro _; simp [latest_nil]
  | append_singleton p e ih =>
    intro h
    have hp := ih fun x hx => h x (List.mem_append_left _ hx)
    have he : (e.Data != 0) = true := by
      simpa using h e (List.mem_append_right _ (List.mem_singleton_self e))
    rw [latest_concat]
    by_cases hk : e.Ofs = k
    · simp [hk, he]
    · have hk2 : ¬ k = e.Ofs := fun x => hk x.symm
      simp [hk, hk2, hp]

theorem checkAction_no_horizontal (s : KeyState) (hl : s.leftKeyDown = false)
    (hr : s.rightKeyDown = false) (hesc : s.escapeKeyDown = false) :
    checkAction s = Action.none := by
  simp [checkAction, hl, hr, hesc]

theorem checkAction_no_vertical (s : KeyState) (hu : s.upKeyDown = false)
    (hd : s.downKeyDown = false) (hesc : s.escapeKeyDown = false) :
    checkAction s = Action.none := by
  simp [checkAction, hu, hd, hesc]

theorem processBatch_chord (K : ActionKeys) (keys : List Nat) (desk : Nat → WinApi)
    (es : List DeviceObjectData)
    (q : position) (hA : checkAction (stateAfter K keys es) = Action.place q)
    (hB : ∀ p r, p ++ r = es → r ≠ [] → checkAction (stateAfter K keys p) = Action.none) :
    ∀ (suf pre : List DeviceObjectData) (m : Nat), pre ++ suf = es → suf ≠ [] →
      processBatch K keys desk m (stateAfter K keys pre) suf =
        some (stateAfter K keys es,
          List.replicate (suf.length - 1) Action.none ++ [Action.place q],
          performAction (desk (m + (suf.length - 1))) (Action.place q)) := by
  intro suf
  induction suf with
  | nil => intro pre _ _ h; exact absurd rfl h
  | cons e rest ih =>
    intro pre m hes _
    have hes2 : (pre ++ [e]) ++ rest = es := by simpa using hes
    cases rest with
    | nil =>
      have hfull : pre ++ [e] = es := by simpa using hes2
      rw [processBatch_singleton K keys desk m _ e (stateAfter_length K keys pre),
        nextState_stateAfter, hfull, hA]
      rfl
    | cons e2 r2 =>
      rw [processBatch_cons_eq K keys desk m _ e _ (stateAfter_length K keys pre),
        nextState_stateAfter, hB (pre ++ [e]) (e2 :: r2) hes2 (by simp),
        if_pos (performAction_none _), ih (pre ++ [e]) (m + 1) hes2 (by simp)]
      have hidx : m + 1 + ((e2 :: r2).length - 1) = m + ((e :: e2 :: r2).length - 1) := by
        simp only [List.length_cons]
        omega
      rw [hidx]
      simp [List.replicate_succ]

theorem latest_beq_of_presses (k : Nat) (p : List DeviceObjectData)
    (h : ∀ e ∈ p, e.Data ≠ 0) :
    (latest p k == some true) = decide (k ∈ p.map fun e => e.Ofs) := by
  rw [Bool.eq_iff_iff]
  simp only [beq_iff_eq, decide_eq_true_eq]
  exact latest_of_presses k p h

/-- C7: let the control keys be pairwise distinct and none of them an action
key, and let (h, v) be one of the four directional pairs with quadrant q.
When the presses of all control keys and of h and v arrive in any order from
the initial state, every event before the last is handled with no action and
the last one with exactly the placement q (after which the loop goes on when
the call returns and the process stops when it panics). -/
theorem chord_fires_on_completing_event (K : ActionKeys) (keys : List Nat)
    (desk : Nat → WinApi) (n : Nat) (h v : Nat)
    (q : position) (es : List DeviceObjectData) (hnd : keys.Nodup)
    (hdis : ∀ k ∈ keys, k ∉ K.all) (hP : (h, v, q) ∈ directionalPairs K)
    (hperm : (es.map fun e => e.Ofs).Perm (keys ++ [h, v]))
    (hdown : ∀ e ∈ es, e.Data ≠ 0) :
    ∃ s, processBatch K keys desk n (initialState keys) es =
      some (s, List.replicate (es.length - 1) Action.none ++ [Action.place q],
        performAction (desk (n + (es.length - 1))) (Action.place q)) := by
  obtain ⟨h1, h2, h3, h4, h5, h6, h7, h8, h9, h10⟩ := K.ne
  have hkL : K.K_LEFT ∉ keys := fun hk => hdis _ hk (by simp [ActionKeys.all])
  have hkR : K.K_RIGHT ∉ keys := fun hk => hdis _ hk (by simp [ActionKeys.all])
  have hkU : K.K_UP ∉ keys := fun hk => hdis _ hk (by simp [ActionKeys.all])
  have hkD : K.K_DOWN ∉ keys := fun hk => hdis _ hk (by simp [ActionKeys.all])
  have hkE : K.K_ESCAPE ∉ keys := fun hk => hdis _ hk (by simp [ActionKeys.all])
  have hmem : ∀ k, (k ∈ es.map fun e => e.Ofs) ↔ k ∈ keys ∨ k = h ∨ k = v := by
    intro k
    rw [hperm.mem_iff]
    simp
  have hH : h = K.K_LEFT ∨ h = K.K_RIGHT := by
    simp only [directionalPairs, List.mem_cons, Prod.mk.injEq, List.mem_singleton,
      List.not_mem_nil, or_false] at hP
    rcases hP with hp | hp | hp | hp <;> simp [hp.1]
  have hV : v = K.K_UP ∨ v = K.K_DOWN := by
    simp only [directionalPairs, List.mem_cons, Prod.mk.injEq, List.mem_singleton,
      List.not_mem_nil, or_false] at hP
    rcases hP with hp | hp | hp | hp <;> simp [hp.2.1]
  have hhk : h ∉ keys := by rcases hH with x | x <;> rw [x] <;> assumption
  have hvk : v ∉ keys := by rcases hV with x | x <;> rw [x] <;> assumption
  have hhv : h ≠ v := by
    rcases hH with x | x <;> rcases hV with y | y <;> rw [x, y] <;> assumption
  have hnodup : (es.map fun e => e.Ofs).Nodup := by
    rw [hperm.nodup_iff]
    rw [List.nodup_append]
    refine ⟨hnd, by simp [hhv], ?_⟩
    intro a ha hb
    simp only [List.mem_cons, List.mem_singleton, List.not_mem_nil, or_false] at hb
    rcases hb with rfl | rfl
    · exact hhk ha
    · exact hvk ha
  have hne : es ≠ [] := by
    intro h0
    have := hperm.length_eq
    simp [h0] at this
  have hA : checkAction (stateAfter K keys es) = Action.place q := by
    have harmed : allControlKeysDown (stateAfter K keys es).controlKeyDown = true := by
      rw [armed_stateAfter]
      intro k hk
      rw [latest_of_presses k es hdown, hmem]
      exact Or.inl hk
    simp only [directionalPairs, List.mem_cons, Prod.mk.injEq, List.mem_singleton,
      List.not_mem_nil, or_false] at hP
    unfold checkAction
    rw [harmed]
    simp only [stateAfter, latest_beq_of_presses _ es hdown, hmem]
    rcases hP with ⟨rfl, rfl, rfl⟩ | ⟨rfl, rfl, rfl⟩ | ⟨rfl, rfl, rfl⟩ | ⟨rfl, rfl, rfl⟩ <;>
      simp [*, Ne.symm h1, Ne.symm h2, Ne.symm h3, Ne.symm h4, Ne.symm h5, Ne.symm h6,
        Ne.symm h7, Ne.symm h8, Ne.symm h9, Ne.symm h10]
  have hB : ∀ p r, p ++ r = es → r ≠ [] →
      checkAction (stateAfter K keys p) = Action.none := by
    intro p r hpr hr
    cases r with
    | nil => exact absurd rfl hr
    | cons x r2 =>
      have hpd : ∀ e ∈ p, e.Data ≠ 0 := fun e he =>
        hdown e (by rw [← hpr]; exact List.mem_append_left _ he)
      have hsub : ∀ k, (k ∈ p.map fun e => e.Ofs) → k ∈ keys ∨ k = h ∨ k = v := by
        intro k hk
        rw [← hmem, ← hpr]
        simp only [List.map_append, List.mem_append]
        exact Or.inl hk
      have hx : x.Ofs ∉ p.map fun e => e.Ofs := by
        rw [← hpr] at hnodup
        simp only [List.map_append, List.map_cons, List.nodup_append, List.nodup_cons] at hnodup
        intro hxp
        exact hnodup.2.2 hxp (List.mem_cons_self _ _)
      have hxm : x.Ofs ∈ keys ∨ x.Ofs = h ∨ x.Ofs = v := by
        rw [← hmem, ← hpr]
        simp
      have hesc : (stateAfter K keys p).escapeKeyDown = false := by
        simp only [stateAfter, latest_beq_of_presses _ p hpd, decide_eq_false_iff_not]
        intro hm
        rcases hsub _ hm with y | y | y
        · exact hkE y
        · rcases hH with z | z <;> rw [z] at y <;> simp_all
        · rcases hV with z | z <;> rw [z] at y <;> simp_all
      rcases hxm with hxk | hxh | hxv
      · have hna : allControlKeysDown (stateAfter K keys p).controlKeyDown ≠ true := by
          intro hall
          rw [armed_stateAfter] at hall
          exact hx ((latest_of_presses _ p hpd).1 (hall _ hxk))
        simp [checkAction, hna]
      · apply checkAction_no_horizontal _ _ _ hesc
        · simp only [stateAfter, latest_beq_of_presses _ p hpd, decide_eq_false_iff_not]
          intro hm
          rcases hsub _ hm with y | y | y
          · exact hkL y
          · rw [y, ← hxh] at hm; exact hx hm
          · rcases hV with z | z <;> rw [z] at y <;> simp_all
        · simp only [stateAfter, latest_beq_of_presses _ p hpd, decide_eq_false_iff_not]
          intro hm
          rcases hsub _ hm with y | y | y
          · exact hkR y
          · rw [y, ← hxh] at hm; exact hx hm
          · rcases hV with z | z <;> rw [z] at y <;> simp_all
      · apply checkAction_no_vertical _ _ _ hesc
        · simp only [stateAfter, latest_beq_of_presses _ p hpd, decide_eq_false_iff_not]
          intro hm
          rcases hsub _ hm with y | y | y
          · exact hkU y
          · rcases hH with z | z <;> rw [z] at y <;> simp_all
          · rw [y, ← hxv] at hm; exact hx hm
        · simp only [stateAfter, latest_beq_of_presses _ p hpd, decide_eq_false_iff_not]
          intro hm
          rcases hsub _ hm with y | y | y
          · exact hkD y
          · rcases hH with z | z <;> rw [z] at y <;> simp_all
          · rw [y, ← hxv] at hm; exact hx hm
  have hrun := processBatch_chord K keys desk es q hA hB es [] n (by simp) hne
  rw [stateAfter_nil] at hrun
  exact ⟨_, hrun⟩

/-- C7, witness: Up, Left Windows, Left, Left Control pressed in this order:
no action on the first three events, one topLeft placement on the last. -/
theorem chord_fires_on_completing_event_witness :
    ∃ s, processBatch di8 controlKeys (fun _ => desktop 7 ⟨0, 0, 1920, 1040⟩) 0
        (initialState controlKeys)
        [keyDown 0xC8, keyDown 0xDB, keyDown 0xCB, keyDown 0x1D] =
      some (s, [Action.none, Action.none, Action.none, Action.place position.topLeft],
        performAction (desktop 7 ⟨0, 0, 1920, 1040⟩) (Action.place position.topLeft)) :=
  chord_fires_on_completing_event di8 controlKeys (fun _ => desktop 7 ⟨0, 0, 1920, 1040⟩) 0
    0xCB 0xC8 position.topLeft
    [keyDown 0xC8, keyDown 0xDB, keyDown 0xCB, keyDown 0x1D] (by decide) (by decide)
    (by decide) (by decide) (by decide)

/-! ## Order of the two keys of a pair -/

theorem zipWith_press_comm (a b : Nat) :
    ∀ (keys : List Nat) (ckd : List Bool),
      List.zipWith (fun key d => if b = key then true else d) keys
          (List.zipWith (fun key d => if a = key then true else d) keys ckd) =
        List.zipWith (fun key d => if a = key then true else d) keys
          (List.zipWith (fun key d => if b = key then true else d) keys ckd) := by
  intro keys
  induction keys with
  | nil => intro ckd; rfl
  | cons k ks ih =>
    intro ckd
    cases ckd with
    | nil => rfl
    | cons d t =>
      simp only [List.zipWith_cons_cons, ih t]
      congr 1
      by_cases ha : a = k <;> by_cases hb : b = k <;> simp [ha, hb]

theorem nextState_press_comm (K : ActionKeys) (keys : List Nat) (s : KeyState)
    (e1 e2 : DeviceObjectData) (h1 : e1.Data ≠ 0) (h2 : e2.Data ≠ 0) :
    nextState K keys (nextState K keys s e1) e2 =
      nextState K keys (nextState K keys s e2) e1 := by
  have d1 : (e1.Data != 0) = true := by simpa using h1
  have d2 : (e2.Data != 0) = true := by simpa using h2
  unfold nextState
  simp only [d1, d2]
  congr 1
  · exact zipWith_press_comm e1.Ofs e2.Ofs keys s.controlKeyDown
  · by_cases ha : e1.Ofs = K.K_ESCAPE <;> by_cases hb : e2.Ofs = K.K_ESCAPE <;> simp [ha, hb]
  · by_cases ha : e1.Ofs = K.K_LEFT <;> by_cases hb : e2.Ofs = K.K_LEFT <;> simp [ha, hb]
  · by_cases ha : e1.Ofs = K.K_RIGHT <;> by_cases hb : e2.Ofs = K.K_RIGHT <;> simp [ha, hb]
  · by_cases ha : e1.Ofs = K.K_UP <;> by_cases hb : e2.Ofs = K.K_UP <;> simp [ha, hb]
  · by_cases ha : e1.Ofs = K.K_DOWN <;> by_cases hb : e2.Ofs = K.K_DOWN <;> simp [ha, hb]

theorem checkAction_eq_terminate_iff (s : KeyState) :
    checkAction s = Action.terminate ↔
      allControlKeysDown s.controlKeyDown = true ∧ s.escapeKeyDown = true := by
  unfold checkAction
  cases allControlKeysDown s.controlKeyDown <;> cases s.escapeKeyDown <;>
    cases s.leftKeyDown <;> cases s.rightKeyDown <;> cases s.upKeyDown <;>
    cases s.downKeyDown <;> simp

/-- C11: for every key state and every pair of a horizontal key h (Left or
Right) and a vertical key v (Up or Down), handling h-down then v-down and
handling v-down then h-down end in the same key state with the same decision
on the second event (the same placement, both no action, or both terminate).
When the first event leaves the loop running (it neither terminates nor ends
in a panic of `reposition`), the loop handles both events with these
results; when neither key is a control key the first event terminates in one
order exactly when it does in the other. -/
theorem directional_pair_order_independent (K : ActionKeys) (keys : List Nat)
    (desk : Nat → WinApi) (n : Nat)
    (s : KeyState) (h v dh dv : Nat) (hwf : s.controlKeyDown.length = keys.length)
    (hH : h = K.K_LEFT ∨ h = K.K_RIGHT) (hV : v = K.K_UP ∨ v = K.K_DOWN)
    (hdh : dh ≠ 0) (hdv : dv ≠ 0) :
    ∃ s1 a1 s2 a2 t1 b1 t2 b2,
      handleEvent K keys s ⟨h, dh⟩ = some (s1, a1) ∧
      handleEvent K keys s1 ⟨v, dv⟩ = some (s2, a2) ∧
      handleEvent K keys s ⟨v, dv⟩ = some (t1, b1) ∧
      handleEvent K keys t1 ⟨h, dh⟩ = some (t2, b2) ∧
      s2 = t2 ∧ a2 = b2 ∧
      (performAction (desk n) a1 = Ending.running →
        processBatch K keys desk n s [⟨h, dh⟩, ⟨v, dv⟩] =
          some (s2, [a1, a2], performAction (desk (n + 1)) a2)) ∧
      (performAction (desk n) b1 = Ending.running →
        processBatch K keys desk n s [⟨v, dv⟩, ⟨h, dh⟩] =
          some (t2, [b1, b2], performAction (desk (n + 1)) b2)) ∧
      (h ∉ keys → v ∉ keys → (a1 = Action.terminate ↔ b1 = Action.terminate)) := by
  have hw1 := nextState_length K keys s ⟨h, dh⟩ hwf
  have hw2 := nextState_length K keys s ⟨v, dv⟩ hwf
  have hcomm := nextState_press_comm K keys s ⟨h, dh⟩ ⟨v, dv⟩ hdh hdv
  refine ⟨_, _, _, _, _, _, _, _, handleEvent_eq K keys s ⟨h, dh⟩ hwf,
    handleEvent_eq K keys _ ⟨v, dv⟩ hw1, handleEvent_eq K keys s ⟨v, dv⟩ hwf,
    handleEvent_eq K keys _ ⟨h, dh⟩ hw2, hcomm, by rw [hcomm], ?_, ?_, ?_⟩
  · intro ha
    rw [processBatch_cons_eq K keys desk n s _ _ hwf, if_pos ha,
      processBatch_singleton K keys desk (n + 1) _ _ hw1]
    rfl
  · intro hb
    rw [processBatch_cons_eq K keys desk n s _ _ hwf, if_pos hb,
      processBatch_singleton K keys desk (n + 1) _ _ hw2]
    rfl
  · intro hhk hvk
    obtain ⟨h1, h2, h3, h4, h5, h6, h7, h8, h9, h10⟩ := K.ne
    have hhE : h ≠ K.K_ESCAPE := by rcases hH with x | x <;> rw [x] <;> assumption
    have hvE : v ≠ K.K_ESCAPE := by rcases hV with x | x <;> rw [x] <;> assumption
    rw [checkAction_eq_terminate_iff, checkAction_eq_terminate_iff]
    simp only [nextState, zipWith_of_not_mem h _ keys s.controlKeyDown hwf hhk,
      zipWith_of_not_mem v _ keys s.controlKeyDown hwf hvk, hhE, hvE, if_false]

/-- C11, witness: with both control keys held, Left-down then Up-down and
Up-down then Left-down, in the program's key codes. -/
theorem directional_pair_order_independent_witness :
    ∃ s1 a1 s2 a2 t1 b1 t2 b2,
      handleEvent di8 controlKeys ⟨[true, true], false, false, false, false, false⟩
        ⟨0xCB, 0x80⟩ = some (s1, a1) ∧
      handleEvent di8 controlKeys s1 ⟨0xC8, 0x80⟩ = some (s2, a2) ∧
      handleEvent di8 controlKeys ⟨[true, true], false, false, false, false, false⟩
        ⟨0xC8, 0x80⟩ = some (t1, b1) ∧
      handleEvent di8 controlKeys t1 ⟨0xCB, 0x80⟩ = some (t2, b2) ∧
      s2 = t2 ∧ a2 = b2 ∧
      (performAction noForegroundWindow a1 = Ending.running →
        processBatch di8 controlKeys (fun _ => noForegroundWindow) 0
          ⟨[true, true], false, false, false, false, false⟩
          [⟨0xCB, 0x80⟩, ⟨0xC8, 0x80⟩] =
            some (s2, [a1, a2], performAction noForegroundWindow a2)) ∧
      (performAction noForegroundWindow b1 = Ending.running →
        processBatch di8 controlKeys (fun _ => noForegroundWindow) 0
          ⟨[true, true], false, false, false, false, false⟩
          [⟨0xC8, 0x80⟩, ⟨0xCB, 0x80⟩] =
            some (t2, [b1, b2], performAction noForegroundWindow b2)) ∧
      ((0xCB : Nat) ∉ controlKeys → (0xC8 : Nat) ∉ controlKeys →
        (a1 = Action.terminate ↔ b1 = Action.terminate)) :=
  directional_pair_order_independent di8 controlKeys (fun _ => noForegroundWindow) 0
    ⟨[true, true], false, false, false, false, false⟩ 0xCB 0xC8 0x80 0x80 rfl
    (Or.inl rfl) (Or.inl rfl) (by decide) (by decide)

/-! ## Termination ends the loop -/

theorem processBatch_append (K : ActionKeys) (keys : List Nat) (desk : Nat → WinApi)
    (rest : List DeviceObjectData) :
    ∀ (pre : List DeviceObjectData) (n : Nat) (s s1 : KeyState) (acts : List Action),
      processBatch K keys desk n s pre = some (s1, acts, Ending.running) →
        processBatch K keys desk n s (pre ++ rest) =
          (processBatch K keys desk (n + pre.length) s1 rest).map
            fun r => (r.1, acts ++ r.2.1, r.2.2) := by
  intro pre
  induction pre with
  | nil =>
    intro n s s1 acts h
    simp only [processBatch, Option.some.injEq, Prod.mk.injEq] at h
    rw [← h.1, ← h.2.1, List.nil_append, List.length_nil, Nat.add_zero]
    cases processBatch K keys desk n s rest <;> simp
  | cons x xs ih =>
    intro n s s1 acts h
    cases hu : updateKeys K keys s x with
    | none => simp [processBatch, handleEvent, hu] at h
    | some sx =>
      have hh : handleEvent K keys s x = some (sx, checkAction sx) := by
        simp [handleEvent, hu]
      by_cases hp : performAction (desk n) (checkAction sx) = Ending.running
      · rw [processBatch_cons_running K keys desk n s sx x xs _ hh hp] at h
        cases hr : processBatch K keys desk (n + 1) sx xs with
        | none => simp [hr] at h
        | some r =>
          obtain ⟨s3, acts3, en3⟩ := r
          simp only [hr, Option.map_some', Option.some.injEq, Prod.mk.injEq] at h
          obtain ⟨h1, h2, h3⟩ := h
          subst h1 h2 h3
          have h3 := ih (n + 1) sx s3 acts3 hr
          have hidx : n + 1 + xs.length = n + (x :: xs).length := by
            simp only [List.length_cons]
            omega
          rw [List.cons_append, processBatch_cons_running K keys desk n s sx x _ _ hh hp, h3,
            hidx]
          cases processBatch K keys desk (n + (x :: xs).length) s3 rest <;> simp
      · rw [processBatch_cons_stop K keys desk n s sx x xs _ hh hp] at h
        simp only [Option.some.injEq, Prod.mk.injEq] at h
        exact absurd h.2.2 hp

/-- C12: when the events before `e` in a batch are handled and leave the loop
running, and handling `e` signals termination, the batch ends there: the key
state is the one right after `e` (no later event of the batch is applied),
the actions are those of the earlier events followed by the termination (no
placement for a later event), and `main` has returned after this one poll,
whatever later polls would deliver. -/
theorem nothing_after_termination (K : ActionKeys) (keys : List Nat) (desk : Nat → WinApi)
    (n : Nat) (s s1 s2 : KeyState)
    (pre post : List DeviceObjectData) (e : DeviceObjectData) (acts : List Action)
    (later : List (Option (List DeviceObjectData)))
    (hpre : processBatch K keys desk n s pre = some (s1, acts, Ending.running))
    (hterm : handleEvent K keys s1 e = some (s2, Action.terminate)) :
    updateKeys K keys s1 e = some s2 ∧
    processBatch K keys desk n s (pre ++ e :: post) =
      some (s2, acts ++ [Action.terminate], Ending.returned) ∧
    mainLoop K keys desk n s (some (pre ++ e :: post) :: later) =
      some ⟨s2, acts ++ [Action.terminate], 1, Ending.returned⟩ := by
  have hb : processBatch K keys desk n s (pre ++ e :: post) =
      some (s2, acts ++ [Action.terminate], Ending.returned) := by
    rw [processBatch_append K keys desk (e :: post) pre n s s1 acts hpre,
      processBatch_cons_stop K keys desk _ s1 s2 e post _ hterm (by
        rw [performAction_terminate]; decide)]
    rfl
  refine ⟨?_, hb, ?_⟩
  · cases hu : updateKeys K keys s1 e with
    | none => simp [handleEvent, hu] at hterm
    | some sx =>
      simp only [handleEvent, hu, Option.some.injEq, Prod.mk.injEq] at hterm
      rw [hterm.1]
  · simp [mainLoop, hb]

/-- C12, witness: Left Control, Left Windows, Left, Up, Escape, Down, Right in
one batch: the topLeft placement, then termination on Escape; Down and Right
are not applied, and the next poll (here a failing one) is never made. -/
theorem nothing_after_termination_witness :
    updateKeys di8 controlKeys ⟨[true, true], false, true, false, true, false⟩
      (keyDown 0x01) = some ⟨[true, true], true, true, false, true, false⟩ ∧
    processBatch di8 controlKeys (fun _ => desktop 7 ⟨0, 0, 1920, 1040⟩) 0
      (initialState controlKeys)
      ([keyDown 0x1D, keyDown 0xDB, keyDown 0xCB, keyDown 0xC8] ++
        keyDown 0x01 :: [keyDown 0xD0, keyDown 0xCD]) =
      some (⟨[true, true], true, true, false, true, false⟩,
        [Action.none, Action.none, Action.none, Action.place position.topLeft] ++
          [Action.terminate], Ending.returned) ∧
    mainLoop di8 controlKeys (fun _ => desktop 7 ⟨0, 0, 1920, 1040⟩) 0
      (initialState controlKeys)
      (some ([keyDown 0x1D, keyDown 0xDB, keyDown 0xCB, keyDown 0xC8] ++
        keyDown 0x01 :: [keyDown 0xD0, keyDown 0xCD]) :: [Option.none]) =
      some ⟨⟨[true, true], true, true, false, true, false⟩,
        [Action.none, Action.none, Action.none, Action.place position.topLeft] ++
          [Action.terminate], 1, Ending.returned⟩ :=
  nothing_after_termination di8 controlKeys (fun _ => desktop 7 ⟨0, 0, 1920, 1040⟩) 0
    (initialState controlKeys)
    ⟨[true, true], false, true, false, true, false⟩
    ⟨[true, true], true, true, false, true, false⟩
    [keyDown 0x1D, keyDown 0xDB, keyDown 0xCB, keyDown 0xC8] [keyDown 0xD0, keyDown 0xCD]
    (keyDown 0x01) [Action.none, Action.none, Action.none, Action.place position.topLeft]
    [Option.none] (by decide) (by decide)

/-! ## The geometry requested by `reposition` -/

theorem wrapInt32_of_isInt32 (z : Int) (h : isInt32 z = true) : wrapInt32 z = z := by
  simp only [isInt32, Bool.and_eq_true, decide_eq_true_eq] at h
  unfold wrapInt32
  omega

/-- C13: for every work area and every quadrant, the size that `reposition`
computes is w = (Right - Left) / 2 and h = (Bottom - Top) / 2 in `int32`
arithmetic with truncating division, x is Left for the left quadrants and
Left + w for the right ones, y is Top for the top quadrants and Top + h for
the bottom ones; whenever `GetMonitorInfoW` succeeds with this work area,
`reposition` passes exactly these four values to `SetWindowPos`.  When the
differences do not overflow, w and h are the exact truncated halves. -/
theorem target_geometry (r : RECT) (pos : position) :
    ∃ x y w h, targetGeometry r pos = (x, y, w, h) ∧
      w = Int.tdiv (wrapInt32 (r.Right - r.Left)) 2 ∧
      h = Int.tdiv (wrapInt32 (r.Bottom - r.Top)) 2 ∧
      x = (if pos = position.topLeft ∨ pos = position.bottomLeft then r.Left
        else wrapInt32 (r.Left + w)) ∧
      y = (if pos = position.topLeft ∨ pos = position.topRight then r.Top
        else wrapInt32 (r.Top + h)) ∧
      (isInt32 (r.Right - r.Left) = true → w = Int.tdiv (r.Right - r.Left) 2) ∧
      (isInt32 (r.Bottom - r.Top) = true → h = Int.tdiv (r.Bottom - r.Top) 2) ∧
      (∀ os : WinApi, os.monitorReply.1 ≠ 0 → os.monitorReply.2.RcWork = r →
        reposition os pos =
          Outcome.returned [WinCall.showWindow os.getForegroundWindow SW_RESTORE,
            WinCall.setWindowPos os.getForegroundWindow 0 x y w h setWindowPosFlags]) := by
  refine ⟨(targetGeometry r pos).1, (targetGeometry r pos).2.1,
    (targetGeometry r pos).2.2.1, (targetGeometry r pos).2.2.2, rfl, ?_, ?_, ?_, ?_, ?_, ?_, ?_⟩
  · cases pos <;> rfl
  · cases pos <;> rfl
  · cases pos <;> simp [targetGeometry, RECT.Width]
  · cases pos <;> simp [targetGeometry, RECT.Height]
  · intro hw
    rw [← wrapInt32_of_isInt32 _ hw]
    cases pos <;> rfl
  · intro hh
    rw [← wrapInt32_of_isInt32 _ hh]
    cases pos <;> rfl
  · intro os h0 hr
    rw [reposition_returned os pos h0, hr]

/-- Evaluation of the geometry: a work area 1920 x 1040 at the origin with
its four target rectangles, one of odd size at (-1920, 0), one of negative
size (the halves -7 / 2 = -3 and -9 / 2 = -4 are truncated toward zero), and
the calls that `reposition` makes for bottomRight. -/
theorem targetGeometry_examples :
    targetGeometry ⟨0, 0, 1920, 1040⟩ position.topLeft = (0, 0, 960, 520) ∧
    targetGeometry ⟨0, 0, 1920, 1040⟩ position.topRight = (960, 0, 960, 520) ∧
    targetGeometry ⟨0, 0, 1920, 1040⟩ position.bottomLeft = (0, 520, 960, 520) ∧
    targetGeometry ⟨0, 0, 1920, 1040⟩ position.bottomRight = (960, 520, 960, 520) ∧
    targetGeometry ⟨-1920, 0, -553, 729⟩ position.bottomRight = (-1237, 364, 683, 364) ∧
    targetGeometry ⟨0, 0, -7, -9⟩ position.bottomRight = (-3, -4, -3, -4) ∧
    reposition (desktop 7 ⟨0, 0, 1920, 1040⟩) position.bottomRight =
      Outcome.returned [WinCall.showWindow 7 9,
        WinCall.setWindowPos 7 0 960 520 960 520 0x4254] := by
  decide

/-! ## Failures of the window calls -/

/-- C14, counterexample: without a foreground window (`GetForegroundWindow`
returns 0) and with `SetWindowPos` failing (it returns 0), `reposition`
returns normally after its two window calls: no panic. -/
theorem placement_failure_counterexample :
    noForegroundWindow.getForegroundWindow = 0 ∧
    noForegroundWindow.setWindowPos 0 0 0 0 960 520 setWindowPosFlags = 0 ∧
    reposition noForegroundWindow position.topLeft =
      Outcome.returned [WinCall.showWindow 0 9,
        WinCall.setWindowPos 0 0 0 0 960 520 0x4254] := by
  decide

/-- C14, amended: for every quadrant, when the work area of the monitor
cannot be obtained (`GetMonitorInfoW` returns 0) `reposition` panics instead
of returning; in every other case it returns normally after calling
`ShowWindow` and `SetWindowPos`, whatever handle `GetForegroundWindow` gave
and whatever these two calls return. -/
theorem reposition_panics_iff_monitor_info_fails (os : WinApi) (pos : position) :
    (os.monitorReply.1 = 0 → reposition os pos = Outcome.panicked "getMonitorInfo failed") ∧
    (os.monitorReply.1 ≠ 0 → ∃ x y w h, reposition os pos =
      Outcome.returned [WinCall.showWindow os.getForegroundWindow SW_RESTORE,
        WinCall.setWindowPos os.getForegroundWindow 0 x y w h setWindowPosFlags]) ∧
    ((∃ msg, reposition os pos = Outcome.panicked msg) ↔ os.monitorReply.1 = 0) := by
  refine ⟨reposition_panicked os pos, ?_, ?_⟩
  · intro h
    exact ⟨_, _, _, _, reposition_returned os pos h⟩
  · constructor
    · rintro ⟨msg, hm⟩
      by_contra h
      rw [reposition_returned os pos h] at hm
      exact Outcome.noConfusion hm
    · intro h
      exact ⟨_, reposition_panicked os pos h⟩

/-- C14, witness: a desktop on which `GetMonitorInfoW` fails makes
`reposition` panic; the desktop without a foreground window does not. -/
theorem reposition_panics_iff_monitor_info_fails_witness :
    reposition noMonitorInfo position.topLeft = Outcome.panicked "getMonitorInfo failed" ∧
    ∃ x y w h, reposition noForegroundWindow position.topLeft =
      Outcome.returned [WinCall.showWindow noForegroundWindow.getForegroundWindow SW_RESTORE,
        WinCall.setWindowPos noForegroundWindow.getForegroundWindow 0 x y w h
          setWindowPosFlags] :=
  ⟨(reposition_panics_iff_monitor_info_fails noMonitorInfo position.topLeft).1 rfl,
    (reposition_panics_iff_monitor_info_fails noForegroundWindow position.topLeft).2.1
      (by decide)⟩

/-- C15: the geometry that `reposition` requests is a function of the
quadrant and the work area alone: on any two desktops (before and after an
earlier call, with any foreground window) on which `GetMonitorInfoW` succeeds
with the same work area, `reposition` passes the same x, y, w, h to
`SetWindowPos`, namely the target geometry of that work area. -/
theorem placement_idempotent (os1 os2 : WinApi) (pos : position)
    (h1 : os1.monitorReply.1 ≠ 0) (h2 : os2.monitorReply.1 ≠ 0)
    (hw : os1.monitorReply.2.RcWork = os2.monitorReply.2.RcWork) :
    ∃ x y w h, targetGeometry os1.monitorReply.2.RcWork pos = (x, y, w, h) ∧
      reposition os1 pos =
        Outcome.returned [WinCall.showWindow os1.getForegroundWindow SW_RESTORE,
          WinCall.setWindowPos os1.getForegroundWindow 0 x y w h setWindowPosFlags] ∧
      reposition os2 pos =
        Outcome.returned [WinCall.showWindow os2.getForegroundWindow SW_RESTORE,
          WinCall.setWindowPos os2.getForegroundWindow 0 x y w h setWindowPosFlags] := by
  refine ⟨(targetGeometry os1.monitorReply.2.RcWork pos).1,
    (targetGeometry os1.monitorReply.2.RcWork pos).2.1,
    (targetGeometry os1.monitorReply.2.RcWork pos).2.2.1,
    (targetGeometry os1.monitorReply.2.RcWork pos).2.2.2, rfl,
    reposition_returned os1 pos h1, ?_⟩
  rw [reposition_returned os2 pos h2, ← hw]

/-- C15, witness: place(topLeft) on the work area 1920 x 1040, first with
foreground window 7 and then with foreground window 9, requests
(0, 0, 960, 520) both times. -/
theorem placement_idempotent_witness :
    ∃ x y w h, targetGeometry ⟨0, 0, 1920, 1040⟩ position.topLeft = (x, y, w, h) ∧
      reposition (desktop 7 ⟨0, 0, 1920, 1040⟩) position.topLeft =
        Outcome.returned [WinCall.showWindow 7 SW_RESTORE,
          WinCall.setWindowPos 7 0 x y w h setWindowPosFlags] ∧
      reposition (desktop 9 ⟨0, 0, 1920, 1040⟩) position.topLeft =
        Outcome.returned [WinCall.showWindow 9 SW_RESTORE,
          WinCall.setWindowPos 9 0 x y w h setWindowPosFlags] :=
  placement_idempotent (desktop 7 ⟨0, 0, 1920, 1040⟩) (desktop 9 ⟨0, 0, 1920, 1040⟩)
    position.topLeft (by decide) (by decide) rfl

/-! ## No control keys -/

theorem updateKeys_nil (K : ActionKeys) (s : KeyState) (e : DeviceObjectData) :
    ∃ s1, updateKeys K [] s e = some s1 ∧ s1.controlKeyDown = s.controlKeyDown := by
  unfold updateKeys
  simp only [setControlKeyDown]
  split_ifs <;> exact ⟨_, rfl, rfl⟩

theorem handleEvent_nil (K : ActionKeys) (s : KeyState) (e : DeviceObjectData) :
    ∃ s1, handleEvent K [] s e = some (s1, checkAction s1) ∧
      s1.controlKeyDown = s.controlKeyDown := by
  obtain ⟨s1, h, hc⟩ := updateKeys_nil K s e
  exact ⟨s1, by simp [handleEvent, h], hc⟩

/-- C16: with an empty list of control keys, handling an event never fails
(in any key state: no slot is indexed) and leaves the empty slot list as it
is; every run from the initial state succeeds and the armed test is true
after every event sequence; from the initial state Escape-down alone
terminates, and Left-down, Up-down place topLeft on the second event. -/
theorem empty_control_keys (K : ActionKeys) :
    (∀ (s : KeyState) (e : DeviceObjectData),
      ∃ s1 a, handleEvent K [] s e = some (s1, a) ∧
        s1.controlKeyDown = s.controlKeyDown) ∧
    (∀ (desk : Nat → WinApi) (n : Nat) (es : List DeviceObjectData),
      ∃ r, processBatch K [] desk n (initialState []) es = some r) ∧
    (∀ es : List DeviceObjectData,
      ∃ s, applyEvents K [] (initialState []) es = some s ∧ s.controlKeyDown = [] ∧
        allControlKeysDown s.controlKeyDown = true) ∧
    (∀ (desk : Nat → WinApi) (n : Nat),
      ∃ s, processBatch K [] desk n (initialState []) [keyDown K.K_ESCAPE] =
        some (s, [Action.terminate], Ending.returned)) ∧
    (∀ (desk : Nat → WinApi) (n : Nat),
      ∃ s, processBatch K [] desk n (initialState []) [keyDown K.K_LEFT, keyDown K.K_UP] =
        some (s, [Action.none, Action.place position.topLeft],
          performAction (desk (n + 1)) (Action.place position.topLeft))) := by
  obtain ⟨h1, h2, h3, h4, h5, h6, h7, h8, h9, h10⟩ := K.ne
  refine ⟨?_, ?_, ?_, ?_, ?_⟩
  · intro s e
    obtain ⟨s1, hs, hc⟩ := handleEvent_nil K s e
    exact ⟨s1, _, hs, hc⟩
  · intro desk n es
    exact processBatch_total K [] desk es n (initialState []) rfl
  · intro es
    refine ⟨stateAfter K [] es, applyEvents_initialState K [] es, rfl, rfl⟩
  · intro desk n
    rw [processBatch_singleton _ _ _ _ _ _ rfl]
    simp [nextState, initialState, checkAction, allControlKeysDown, performAction_terminate,
      keyDown]
  · intro desk n
    rw [processBatch_cons_eq _ _ _ _ _ _ _ rfl]
    rw [processBatch_singleton _ _ _ _ _ _ (by simp [initialState, nextState])]
    simp [nextState, initialState, checkAction, allControlKeysDown, performAction_none,
      keyDown, h1, h2, h3, h4, h5, h8, h9, Ne.symm h2, Ne.symm h9, Ne.symm h4]

/-! ## The decision as a priority chain -/

/-- C17: on an event after whose update all control keys are down and Escape
is up, a placement is invoked exactly when (Left or Right is down) and (Up or
Down is down), and its quadrant is that of the first pair that holds in the
order Left+Up, Left+Down, Right+Up, Right+Down; otherwise there is no action.
The action is a function of the updated key state: any other event that
leads to the same state gets the same action. -/
theorem decision_is_priority_chain (K : ActionKeys) (keys : List Nat) (s : KeyState)
    (e : DeviceObjectData) (hwf : s.controlKeyDown.length = keys.length) :
    ∃ s1 a, updateKeys K keys s e = some s1 ∧ handleEvent K keys s e = some (s1, a) ∧
      (allControlKeysDown s1.controlKeyDown = true → s1.escapeKeyDown = false →
        ((∃ q, a = Action.place q) ↔
          ((s1.leftKeyDown = true ∨ s1.rightKeyDown = true) ∧
            (s1.upKeyDown = true ∨ s1.downKeyDown = true))) ∧
        ((s1.leftKeyDown && s1.upKeyDown) = true → a = Action.place position.topLeft) ∧
        ((s1.leftKeyDown && s1.upKeyDown) = false →
          (s1.leftKeyDown && s1.downKeyDown) = true →
            a = Action.place position.bottomLeft) ∧
        ((s1.leftKeyDown && s1.upKeyDown) = false →
          (s1.leftKeyDown && s1.downKeyDown) = false →
          (s1.rightKeyDown && s1.upKeyDown) = true →
            a = Action.place position.topRight) ∧
        ((s1.leftKeyDown && s1.upKeyDown) = false →
          (s1.leftKeyDown && s1.downKeyDown) = false →
          (s1.rightKeyDown && s1.upKeyDown) = false →
          (s1.rightKeyDown && s1.downKeyDown) = true →
            a = Action.place position.bottomRight) ∧
        ((s1.leftKeyDown && s1.upKeyDown) = false →
          (s1.leftKeyDown && s1.downKeyDown) = false →
          (s1.rightKeyDown && s1.upKeyDown) = false →
          (s1.rightKeyDown && s1.downKeyDown) = false → a = Action.none)) ∧
      (∀ (s0 : KeyState) (e0 : DeviceObjectData),
        updateKeys K keys s0 e0 = some s1 → handleEvent K keys s0 e0 = some (s1, a)) := by
  obtain ⟨s1, hu, _, hh⟩ := handleEvent_total K keys s e hwf
  refine ⟨s1, checkAction s1, hu, hh, ?_, ?_⟩
  · intro harmed hesc
    unfold checkAction
    rw [harmed, hesc]
    cases hl : s1.leftKeyDown <;> cases hr : s1.rightKeyDown <;>
      cases hu : s1.upKeyDown <;> cases hd : s1.downKeyDown <;> simp
  · intro s0 e0 h0
    simp [handleEvent, h0]

/-- C17, witness: with both control keys and all four arrow keys held, the
handler places topLeft (Left wins over Right, Up over Down). -/
theorem decision_is_priority_chain_witness :
    ∃ s1, updateKeys di8 controlKeys ⟨[true, true], false, true, true, true, false⟩
        (keyDown 0xD0) = some s1 ∧
      handleEvent di8 controlKeys ⟨[true, true], false, true, true, true, false⟩
        (keyDown 0xD0) = some (s1, Action.place position.topLeft) ∧
      s1 = ⟨[true, true], false, true, true, true, true⟩ := by
  obtain ⟨s1, a, hu, hh, h, _⟩ :=
    decision_is_priority_chain di8 controlKeys
      ⟨[true, true], false, true, true, true, false⟩ (keyDown 0xD0) rfl
  have hs : s1 = ⟨[true, true], false, true, true, true, true⟩ := by
    have h0 : updateKeys di8 controlKeys ⟨[true, true], false, true, true, true, false⟩
        (keyDown 0xD0) = some ⟨[true, true], false, true, true, true, true⟩ := by decide
    rw [h0] at hu
    exact (Option.some.inj hu).symm
  subst hs
  have ha := (h (by decide) (by decide)).2.1 (by decide)
  rw [ha] at hh
  exact ⟨_, hu, hh, rfl⟩

/-! ## The four target rectangles and the work area -/

theorem targetGeometry_exact (r : RECT) (pos : position)
    (hw0 : 0 ≤ r.Right - r.Left) (hh0 : 0 ≤ r.Bottom - r.Top)
    (hw1 : r.Right - r.Left ≤ 2147483647) (hh1 : r.Bottom - r.Top ≤ 2147483647)
    (hL : isInt32 r.Left = true) (hT : isInt32 r.Top = true)
    (hR : isInt32 r.Right = true) (hB : isInt32 r.Bottom = true) :
    targetGeometry r pos =
      ((if pos = position.topLeft ∨ pos = position.bottomLeft then r.Left
          else r.Left + (r.Right - r.Left) / 2),
        (if pos = position.topLeft ∨ pos = position.topRight then r.Top
          else r.Top + (r.Bottom - r.Top) / 2),
        (r.Right - r.Left) / 2, (r.Bottom - r.Top) / 2) := by
  simp only [isInt32, Bool.and_eq_true, decide_eq_true_eq] at hL hT hR hB
  have hW : r.Width = r.Right - r.Left := by
    unfold RECT.Width wrapInt32
    omega
  have hH : r.Height = r.Bottom - r.Top := by
    unfold RECT.Height wrapInt32
    omega
  have hw : Int.tdiv (r.Right - r.Left) 2 = (r.Right - r.Left) / 2 :=
    Int.tdiv_eq_ediv hw0 (by decide)
  have hh : Int.tdiv (r.Bottom - r.Top) 2 = (r.Bottom - r.Top) / 2 :=
    Int.tdiv_eq_ediv hh0 (by decide)
  have hx : wrapInt32 (r.Left + (r.Right - r.Left) / 2) = r.Left + (r.Right - r.Left) / 2 := by
    unfold wrapInt32
    omega
  have hy : wrapInt32 (r.Top + (r.Bottom - r.Top) / 2) = r.Top + (r.Bottom - r.Top) / 2 := by
    unfold wrapInt32
    omega
  cases pos <;> simp [targetGeometry, hW, hH, hw, hh, hx, hy]

/-- C18, counterexample: the work area (0, 0, 1, 0) has the odd width 1 and
the height 0; it has no pixel, nor has any target rectangle, so the union of
the four target rectangles equals the whole work area although the width is
odd. -/
theorem quadrants_partition_counterexample :
    RECT.Width ⟨0, 0, 1, 0⟩ = 1 ∧ RECT.Height ⟨0, 0, 1, 0⟩ = 0 ∧
    (∀ p : Int × Int, (∃ pos, inQuadrant ⟨0, 0, 1, 0⟩ pos p = true) ↔
      inWorkArea ⟨0, 0, 1, 0⟩ p = true) := by
  refine ⟨by decide, by decide, ?_⟩
  intro p
  have hg : ∀ pos, targetGeometry ⟨0, 0, 1, 0⟩ pos = (0, 0, 0, 0) := by
    intro pos
    cases pos <;> decide
  constructor
  · rintro ⟨pos, hp⟩
    simp only [inQuadrant, hg pos, inRect, Bool.and_eq_true, decide_eq_true_eq] at hp
    omega
  · intro hp
    simp only [inWorkArea, Bool.and_eq_true, decide_eq_true_eq] at hp
    omega

/-- C18, amended: for every work area of `int32` coordinates with
0 <= Right - Left and 0 <= Bottom - Top and no overflow, the four target
rectangles lie inside the work area, are pairwise disjoint, and their union
is [Left, Left+2w) x [Top, Top+2h); Left+2w = Right and Top+2h = Bottom hold
exactly when width and height are both even, and for a work area with at
least one pixel the union equals the whole work area exactly when width and
height are both even. -/
theorem quadrants_partition (r : RECT)
    (hw0 : 0 ≤ r.Right - r.Left) (hh0 : 0 ≤ r.Bottom - r.Top)
    (hw1 : r.Right - r.Left ≤ 2147483647) (hh1 : r.Bottom - r.Top ≤ 2147483647)
    (hL : isInt32 r.Left = true) (hT : isInt32 r.Top = true)
    (hR : isInt32 r.Right = true) (hB : isInt32 r.Bottom = true) :
    (∀ pos, (targetGeometry r pos).2.2.1 = (r.Right - r.Left) / 2 ∧
      (targetGeometry r pos).2.2.2 = (r.Bottom - r.Top) / 2) ∧
    (∀ pos p, inQuadrant r pos p = true → inWorkArea r p = true) ∧
    (∀ pos1 pos2 p, pos1 ≠ pos2 →
      ¬ (inQuadrant r pos1 p = true ∧ inQuadrant r pos2 p = true)) ∧
    (∀ p, (∃ pos, inQuadrant r pos p = true) ↔
      inRect r.Left r.Top (2 * ((r.Right - r.Left) / 2)) (2 * ((r.Bottom - r.Top) / 2)) p
        = true) ∧
    ((r.Left + 2 * ((r.Right - r.Left) / 2) = r.Right ∧
        r.Top + 2 * ((r.Bottom - r.Top) / 2) = r.Bottom) ↔
      ((r.Right - r.Left) % 2 = 0 ∧ (r.Bottom - r.Top) % 2 = 0)) ∧
    (0 < r.Right - r.Left → 0 < r.Bottom - r.Top →
      ((∀ p, (∃ pos, inQuadrant r pos p = true) ↔ inWorkArea r p = true) ↔
        ((r.Right - r.Left) % 2 = 0 ∧ (r.Bottom - r.Top) % 2 = 0))) := by
  have hg := fun pos => targetGeometry_exact r pos hw0 hh0 hw1 hh1 hL hT hR hB
  have hunion : ∀ p : Int × Int, (∃ pos, inQuadrant r pos p = true) ↔
      inRect r.Left r.Top (2 * ((r.Right - r.Left) / 2)) (2 * ((r.Bottom - r.Top) / 2)) p
        = true := by
    intro p
    constructor
    · rintro ⟨pos, hp⟩
      simp only [inQuadrant, hg pos, inRect, Bool.and_eq_true, decide_eq_true_eq] at hp ⊢
      cases pos <;> simp at hp <;> omega
    · intro hp
      simp only [inRect, Bool.and_eq_true, decide_eq_true_eq] at hp
      by_cases hx : p.1 < r.Left + (r.Right - r.Left) / 2
      · by_cases hy : p.2 < r.Top + (r.Bottom - r.Top) / 2
        · refine ⟨position.topLeft, ?_⟩
          simp only [inQuadrant, hg, inRect, Bool.and_eq_true, decide_eq_true_eq]
          simp
          omega
        · refine ⟨position.bottomLeft, ?_⟩
          simp only [inQuadrant, hg, inRect, Bool.and_eq_true, decide_eq_true_eq]
          simp
          omega
      · by_cases hy : p.2 < r.Top + (r.Bottom - r.Top) / 2
        · refine ⟨position.topRight, ?_⟩
          simp only [inQuadrant, hg, inRect, Bool.and_eq_true, decide_eq_true_eq]
          simp
          omega
        · refine ⟨position.bottomRight, ?_⟩
          simp only [inQuadrant, hg, inRect, Bool.and_eq_true, decide_eq_true_eq]
          simp
          omega
  refine ⟨?_, ?_, ?_, hunion, ?_, ?_⟩
  · intro pos
    rw [hg pos]
    exact ⟨rfl, rfl⟩
  · intro pos p hp
    simp only [inQuadrant, hg pos, inRect, Bool.and_eq_true, decide_eq_true_eq] at hp
    simp only [inWorkArea, Bool.and_eq_true, decide_eq_true_eq]
    cases pos <;> simp at hp <;> omega
  · intro pos1 pos2 p hne
    rintro ⟨hp1, hp2⟩
    simp only [inQuadrant, hg, inRect, Bool.and_eq_true, decide_eq_true_eq] at hp1 hp2
    cases pos1 <;> cases pos2 <;> simp at hne hp1 hp2 <;> omega
  · omega
  · intro hw hh
    constructor
    · intro hall
      have h1 := (hall (r.Right - 1, r.Top)).2 (by
        simp only [inWorkArea, Bool.and_eq_true, decide_eq_true_eq]
        omega)
      have h2 := (hall (r.Left, r.Bottom - 1)).2 (by
        simp only [inWorkArea, Bool.and_eq_true, decide_eq_true_eq]
        omega)
      rw [hunion] at h1 h2
      simp only [inRect, Bool.and_eq_true, decide_eq_true_eq] at h1 h2
      omega
    · intro heven p
      rw [hunion]
      simp only [inRect, inWorkArea, Bool.and_eq_true, decide_eq_true_eq]
      constructor <;> intro hp <;> omega

/-- C18, witness: the work area (0, 0, 1921, 1040) of odd width: its four
target rectangles are 960 x 520, and the column x = 1920 is not covered. -/
theorem quadrants_partition_witness :
    (∀ pos, (targetGeometry ⟨0, 0, 1921, 1040⟩ pos).2.2.1 = 960 ∧
      (targetGeometry ⟨0, 0, 1921, 1040⟩ pos).2.2.2 = 520) ∧
    inWorkArea ⟨0, 0, 1921, 1040⟩ (1920, 0) = true ∧
    ¬ (∃ pos, inQuadrant ⟨0, 0, 1921, 1040⟩ pos (1920, 0) = true) := by
  obtain ⟨h1, _, _, h4, _, _⟩ :=
    quadrants_partition ⟨0, 0, 1921, 1040⟩ (by decide) (by decide) (by decide) (by decide)
      (by decide) (by decide) (by decide) (by decide)
  refine ⟨h1, by decide, ?_⟩
  rw [h4]
  decide

end Layout
